import Mathlib

/-! # The QGB block-end producer and orchestrator queues

A shallow embedding of `x/qgb/abci.go` (`EndBlocker`, `handleValsetRequest`,
`handleDataCommitmentRequest`, `maybePruneAttestations`), of the tasks of
`x/qgb/orchestrator/orchestrator.go` (`EnqueueMissingEvents`, `StartNewEventsListener`,
`ProcessNonces`, `Process`, `Retrier.Retry`) and of `EncodeValsetConfirm` of
`x/qgb/orchestrator/encode.go`.

Conventions of the embedding:

* nonces, block heights and the data commitment window are natural numbers; where the source
  converts a `uint64` by `int64(·)`, in `handleDataCommitmentRequest` and in the encoder, the
  conversion is `toInt64`, negative from `2 ^ 63` on, and the `int64` subtraction wraps;
* the `float64` comparison of `handleValsetRequest` is a comparison of rationals, the
  threshold being the `float64` nearest to `0.05`;
* block times are integers counting nanoseconds, so that `AttestationExpiryTime` is the
  source's `8 * 7 * 24 * time.Hour`;
* a Go `panic` is the fault `Fault.panic`; the unbounded `for` of
  `handleDataCommitmentRequest` takes a number of iterations it may run and reports
  `Fault.outOfFuel` when they do not suffice;
* the keeper (`x/qgb/keeper`) is not part of the sources at hand: its operations are modelled
  from the specification, each one saying so;
* channels are the lists of the values sent on them, and the queriers, the signer and the
  broadcaster of the orchestrator are fields of the structure `Orchestrator`.
-/

namespace QGB

/-! ## Data model -/

/-- A member of a validator set: an ethereum address and its power. -/
structure BridgeValidator where
  Power : Nat
  EthereumAddress : String
  deriving DecidableEq, Repr

/-- A validator set attestation. -/
structure Valset where
  Nonce : Nat
  Members : List BridgeValidator
  Height : Nat
  Time : Int
  deriving DecidableEq, Repr

/-- A data commitment attestation over the blocks from `BeginBlock` to `EndBlock`. -/
structure DataCommitment where
  Nonce : Nat
  BeginBlock : Nat
  EndBlock : Nat
  Time : Int
  deriving DecidableEq, Repr

/-- An attestation is a valset or a data commitment (`types.AttestationRequestI`). -/
inductive Attestation where
  | valset (v : Valset)
  | dataCommitment (d : DataCommitment)
  deriving DecidableEq, Repr

/-- The nonce of an attestation. -/
def Attestation.GetNonce : Attestation → Nat
  | .valset v => v.Nonce
  | .dataCommitment d => d.Nonce

/-- The creation time of an attestation. -/
def Attestation.BlockTime : Attestation → Int
  | .valset v => v.Time
  | .dataCommitment d => d.Time

/-- What the key-value store holds under an attestation key: bytes that decode to an
attestation, or bytes that fail to decode. The key is the nonce. -/
inductive Entry where
  | decoded (a : Attestation)
  | garbled (nonce : Nat)
  deriving DecidableEq, Repr

/-- The nonce under which an entry is stored. -/
def Entry.key : Entry → Nat
  | .decoded a => a.GetNonce
  | .garbled n => n

/-- The block context: height and time of the block that is ending. The height is an `int64`
of the source that is never negative, so a natural number below `2 ^ 63`. -/
structure Ctx where
  BlockHeight : Nat
  BlockTime : Int
  deriving DecidableEq, Repr

/-- Modelled from the spec: the keeper of `x/qgb/keeper`, which is missing from the sources.
It holds the attestation log keyed by nonce, the two cursors (`latestNonce` is `none` while
uninitialised), the last unbonding height, the data commitment window parameter and the current
bonded validator set as the staking module reports it (normalised). `requests` records the
attestations handed to `SetAttestationRequest`, oldest first. -/
structure Keeper where
  entries : List Entry
  latestNonce : Option Nat
  earliestAvailableNonce : Nat
  lastUnbondingHeight : Nat
  dataCommitmentWindow : Nat
  bonded : List BridgeValidator
  requests : List Attestation
  deriving DecidableEq, Repr

/-- How a block-end handler can fail to return. -/
inductive Fault where
  | panic (msg : String)
  | outOfFuel
  deriving DecidableEq, Repr

/-- What `GetAttestationByNonce` returns: the attestation, whether it was found, the error. -/
structure ReadResult where
  att : Option Attestation
  found : Bool
  err : Option String
  deriving DecidableEq, Repr

/-! ## Constants of `abci.go` -/

/-- The threshold of change in the validator set power that triggers a new valset. The
constant `0.05` of the source is compared with a `float64`, so it stands for the `float64`
nearest to `0.05`, which is `3602879701896397 / 2 ^ 56`, a little above one twentieth. A
finite `float64` is the rational number it denotes, and comparing two of them is comparing
these rationals. -/
def SignificantPowerDifferenceThreshold : ℚ := 3602879701896397 / 72057594037927936

/-- The conversion `int64(·)` of a `uint64`: values from `2 ^ 63` on become negative. -/
def toInt64 (n : Nat) : Int :=
  if n % 2 ^ 64 < 2 ^ 63 then ((n % 2 ^ 64 : Nat) : Int) else ((n % 2 ^ 64 : Nat) : Int) - 2 ^ 64

/-- The result of an `int64` operation: the exact result wrapped into the range from
`-2 ^ 63` to `2 ^ 63 - 1`. -/
def wrapInt64 (i : Int) : Int :=
  (i + 9223372036854775808) % 18446744073709551616 - 9223372036854775808

/-- One hour, in nanoseconds (`time.Hour`). -/
def Hour : Int := 3600 * 1000000000

/-- The expiration time of an attestation: `8 * 7 * 24 * time.Hour`. -/
def AttestationExpiryTime : Int := 8 * 7 * 24 * Hour

/-- The error of `GetCurrentValset` on an empty bonded set (`types.ErrNoValidators`). -/
def ErrNoValidators : String := "no bonded validators"

/-! ## The keeper -/

/-- Modelled from the spec: `CheckLatestAttestationNonce` (missing keeper code) tells whether
the latest nonce has left its uninitialised state. -/
def Keeper.CheckLatestAttestationNonce (k : Keeper) : Bool :=
  k.latestNonce.isSome

/-- Modelled from the spec: `GetLatestAttestationNonce` (missing keeper code), the cursor
`latest_nonce`, `0` while nothing was appended. -/
def Keeper.GetLatestAttestationNonce (k : Keeper) : Nat :=
  k.latestNonce.getD 0

/-- Modelled from the spec: `GetEarliestAvailableAttestationNonce` (missing keeper code). -/
def Keeper.GetEarliestAvailableAttestationNonce (k : Keeper) : Nat :=
  k.earliestAvailableNonce

/-- Modelled from the spec: `SetEarliestAvailableAttestationNonce` (missing keeper code). -/
def Keeper.SetEarliestAvailableAttestationNonce (k : Keeper) (n : Nat) : Keeper :=
  { k with earliestAvailableNonce := n }

/-- Modelled from the spec: `GetLastUnBondingBlockHeight` (missing keeper code). -/
def Keeper.GetLastUnBondingBlockHeight (k : Keeper) : Nat :=
  k.lastUnbondingHeight

/-- Modelled from the spec: `GetDataCommitmentWindowParam` (missing keeper code). -/
def Keeper.GetDataCommitmentWindowParam (k : Keeper) : Nat :=
  k.dataCommitmentWindow

/-- The entry stored under a nonce, if any. -/
def Keeper.entryAt (k : Keeper) (n : Nat) : Option Entry :=
  k.entries.find? (fun e => e.key == n)

/-- Modelled from the spec: `GetAttestationByNonce` (missing keeper code), the store's
`get(n)`: nothing under the key is "not found", bytes that do not decode are an error. -/
def Keeper.GetAttestationByNonce (k : Keeper) (n : Nat) : ReadResult :=
  match k.entryAt n with
  | none => { att := none, found := false, err := none }
  | some (.garbled _) => { att := none, found := false, err := some "unmarshal attestation" }
  | some (.decoded a) => { att := some a, found := true, err := none }

/-- Modelled from the spec: `DeleteAttestation` (missing keeper code), the store's idempotent
`delete(n)`. -/
def Keeper.DeleteAttestation (k : Keeper) (n : Nat) : Keeper :=
  { k with entries := k.entries.filter (fun e => e.key != n) }

/-- Modelled from the spec: `SetAttestationRequest` (missing keeper code), the store's
`append(att)`, which requires `att.nonce == latest_nonce + 1`, stores the attestation under its
nonce and moves `latest_nonce` to it. -/
def Keeper.SetAttestationRequest (k : Keeper) (at_ : Attestation) : Except String Keeper :=
  if at_.GetNonce = k.GetLatestAttestationNonce + 1 then
    .ok { k with
      entries := .decoded at_ :: k.entries.filter (fun e => e.key != at_.GetNonce)
      latestNonce := some at_.GetNonce
      requests := k.requests ++ [at_] }
  else
    .error "not incrementing latest attestation nonce correctly"

/-- Modelled from the spec: `GetCurrentValset` (missing keeper code). The valset that would
be emitted now: nonce `latest_nonce + 1`, the current height and time, the current bonded set
as members; `ErrNoValidators` when that set is empty. -/
def Keeper.GetCurrentValset (k : Keeper) (ctx : Ctx) : Except String Valset :=
  if k.bonded.isEmpty then
    .error ErrNoValidators
  else
    .ok { Nonce := k.GetLatestAttestationNonce + 1, Members := k.bonded,
          Height := ctx.BlockHeight, Time := ctx.BlockTime }

/-- The most recent valset stored at a nonce `≤ n`, walking the log downwards. -/
def Keeper.latestValsetFrom (k : Keeper) : Nat → Option Valset
  | 0 =>
    match k.entryAt 0 with
    | some (.decoded (.valset v)) => some v
    | _ => none
  | n + 1 =>
    match k.entryAt (n + 1) with
    | some (.decoded (.valset v)) => some v
    | _ => k.latestValsetFrom n

/-- Modelled from the spec: `GetLatestValset` (missing keeper code), the most recent Valset
attestation of the log; an error when the log holds none. -/
def Keeper.GetLatestValset (k : Keeper) : Except String Valset :=
  match k.latestValsetFrom k.GetLatestAttestationNonce with
  | some v => .ok v
  | none => .error "couldn't find latest valset"

/-- The most recent data commitment stored at a nonce `≤ n`, walking the log downwards. -/
def Keeper.lastDataCommitmentFrom (k : Keeper) : Nat → Option DataCommitment
  | 0 =>
    match k.entryAt 0 with
    | some (.decoded (.dataCommitment d)) => some d
    | _ => none
  | n + 1 =>
    match k.entryAt (n + 1) with
    | some (.decoded (.dataCommitment d)) => some d
    | _ => k.lastDataCommitmentFrom n

/-- Modelled from the spec: `GetLastDataCommitment` (missing keeper code), the most recent
DataCommitment attestation of the log; an error when the log holds none. -/
def Keeper.GetLastDataCommitment (k : Keeper) : Except String DataCommitment :=
  match k.lastDataCommitmentFrom k.GetLatestAttestationNonce with
  | some d => .ok d
  | none => .error "couldn't find last data commitment"

/-- Modelled from the spec: `HasDataCommitmentInStore` (missing keeper code), whether a
DataCommitment attestation is stored. -/
def Keeper.HasDataCommitmentInStore (k : Keeper) : Bool :=
  (k.lastDataCommitmentFrom k.GetLatestAttestationNonce).isSome

/-- Modelled from the spec: `NextDataCommitment` (missing keeper code). It begins where the
last data commitment ended (at `0` when there is none), spans one window and takes the nonce
`latest_nonce + 1`. -/
def Keeper.NextDataCommitment (k : Keeper) (ctx : Ctx) : DataCommitment :=
  let beginBlock :=
    match k.lastDataCommitmentFrom k.GetLatestAttestationNonce with
    | some d => d.EndBlock
    | none => 0
  { Nonce := k.GetLatestAttestationNonce + 1, BeginBlock := beginBlock,
    EndBlock := beginBlock + k.GetDataCommitmentWindowParam, Time := ctx.BlockTime }

/-! ## Power difference -/

/-- The total power of a member list. -/
def totalPower (ms : List BridgeValidator) : Nat :=
  (ms.map (fun m => m.Power)).sum

/-- The power a member list gives to an address. -/
def powerOf (ms : List BridgeValidator) (a : String) : Nat :=
  ((ms.filter (fun m => m.EthereumAddress == a)).map (fun m => m.Power)).sum

/-- The share of the total power an address holds in a member list. -/
def normalizedPower (ms : List BridgeValidator) (a : String) : ℚ :=
  (powerOf ms a : ℚ) / (totalPower ms : ℚ)

/-- Modelled from the spec: `PowerDiff` (missing, `x/qgb/types`). Both sets are scaled to the
same total, the absolute differences are summed over the union of the addresses, and the sum
is halved, which gives a value between `0` and `1`. Exact rationals stand for the source's
`float64`. -/
def PowerDiff (cur latest : List BridgeValidator) : ℚ :=
  (((cur ++ latest).map (fun m => m.EthereumAddress)).dedup.map
    (fun a => |normalizedPower cur a - normalizedPower latest a|)).sum / 2

/-! ## The block-end producer (`abci.go`) -/

/-- The closure `setDataCommitmentAttestation` of `handleDataCommitmentRequest`: it appends
the next data commitment, and panics when the append fails. -/
def setDataCommitmentAttestation (ctx : Ctx) (k : Keeper) : Except Fault Keeper :=
  let dataCommitment := k.NextDataCommitment ctx
  match k.SetAttestationRequest (.dataCommitment dataCommitment) with
  | .error err => .error (.panic err)
  | .ok k' => .ok k'

/-- The `for` loop of `handleDataCommitmentRequest`, allowed `fuel` iterations. It keeps
creating data commitments until the current height is less than a window past the last one.
The comparisons are those of the source on `int64`: the end block goes through `int64(·)`
and the subtraction wraps. The height is that of the context, an `int64` that is not
negative. -/
def dataCommitmentLoop (ctx : Ctx) (dataCommitmentWindow : Int) : Nat → Keeper → Except Fault Keeper
  | 0, _ => .error .outOfFuel
  | fuel + 1, k =>
    if k.HasDataCommitmentInStore then
      match k.GetLastDataCommitment with
      | .error err => .error (.panic err)
      | .ok lastDataCommitment =>
        if wrapInt64 ((ctx.BlockHeight : Int) - toInt64 lastDataCommitment.EndBlock) ≥
            dataCommitmentWindow then
          match setDataCommitmentAttestation ctx k with
          | .error e => .error e
          | .ok k' => dataCommitmentLoop ctx dataCommitmentWindow fuel k'
        else
          .ok k
    else
      if (ctx.BlockHeight : Int) ≥ dataCommitmentWindow then
        match setDataCommitmentAttestation ctx k with
        | .error e => .error e
        | .ok k' => dataCommitmentLoop ctx dataCommitmentWindow fuel k'
      else
        .ok k

/-- The function `handleDataCommitmentRequest`: the window is read once and converted by
`int64(·)`, then the loop runs. -/
def handleDataCommitmentRequest (fuel : Nat) (ctx : Ctx) (k : Keeper) : Except Fault Keeper :=
  dataCommitmentLoop ctx (toInt64 k.GetDataCommitmentWindowParam) fuel k

/-- The end of `handleValsetRequest`: when one of the three conditions holds, the current
valset is appended; failing to get it or to append it panics. -/
def putValsetRequest (ctx : Ctx) (k : Keeper) (latestValset : Option Valset)
    (lastUnbondingHeight : Nat) (significantPowerDiff : Bool) : Except Fault Keeper :=
  if latestValset.isNone || lastUnbondingHeight == ctx.BlockHeight || significantPowerDiff then
    match k.GetCurrentValset ctx with
    | .error err => .error (.panic err)
    | .ok valset =>
      match k.SetAttestationRequest (.valset valset) with
      | .error err => .error (.panic err)
      | .ok k' => .ok k'
  else
    .ok k

/-- The function `handleValsetRequest`. The latest valset is read when the latest nonce is
initialised and not `0`; with a latest valset at hand the power difference to the current
valset is computed, and an empty bonded set ends the function there. The conversions
`ToInternal` cannot fail on the members of this model, whose addresses are well formed. -/
def handleValsetRequest (ctx : Ctx) (k : Keeper) : Except Fault Keeper :=
  let readLatest : Except Fault (Option Valset) :=
    if k.CheckLatestAttestationNonce && k.GetLatestAttestationNonce != 0 then
      match k.GetLatestValset with
      | .error err => .error (.panic err)
      | .ok v => .ok (some v)
    else
      .ok none
  match readLatest with
  | .error e => .error e
  | .ok latestValset =>
    let lastUnbondingHeight := k.GetLastUnBondingBlockHeight
    match latestValset with
    | some latest =>
      match k.GetCurrentValset ctx with
      | .error err =>
        if err = ErrNoValidators then
          .ok k
        else
          .error (.panic err)
      | .ok vs =>
        let significantPowerDiff : Bool :=
          decide (PowerDiff vs.Members latest.Members > SignificantPowerDifferenceThreshold)
        putValsetRequest ctx k latestValset lastUnbondingHeight significantPowerDiff
    | none =>
      putValsetRequest ctx k latestValset lastUnbondingHeight false

/-- The `for` loop of `maybePruneAttestations`, from the nonce `n` on. It deletes the
attestations that expired and stops at the first one that is still valid or at the latest
nonce. The second component is the nonce the loop ended at, or `none` when a failed read made
the function return from inside the loop. `fuel` bounds the iterations; `latest - n` suffices. -/
def pruneLoop (ctx : Ctx) (latestAttestationNonce : Nat) : Nat → Nat → Keeper → Keeper × Option Nat
  | 0, n, k => (k, some n)
  | fuel + 1, n, k =>
    if n < latestAttestationNonce then
      let r := k.GetAttestationByNonce n
      if r.err.isSome then
        (k, none)
      else if !r.found then
        (k, none)
      else
        match r.att with
        | none => (k, none)
        | some newEarliestAttestation =>
          if ctx.BlockTime < newEarliestAttestation.BlockTime + AttestationExpiryTime then
            (k, some n)
          else
            pruneLoop ctx latestAttestationNonce fuel (n + 1) (k.DeleteAttestation n)
    else
      (k, some n)

/-- The function `maybePruneAttestations`: nothing happens while the nonce is uninitialised,
when the earliest attestation cannot be read, or when it is still valid; otherwise the loop
prunes and the new earliest available nonce is persisted. -/
def maybePruneAttestations (ctx : Ctx) (k : Keeper) : Keeper :=
  if !k.CheckLatestAttestationNonce then
    k
  else
    let r := k.GetAttestationByNonce k.GetEarliestAvailableAttestationNonce
    if r.err.isSome then
      k
    else if !r.found then
      k
    else
      match r.att with
      | none => k
      | some earliestAttestation =>
        if ctx.BlockTime < earliestAttestation.BlockTime + AttestationExpiryTime then
          k
        else
          let latestAttestationNonce := k.GetLatestAttestationNonce
          let start := earliestAttestation.GetNonce
          match pruneLoop ctx latestAttestationNonce (latestAttestationNonce - start) start k with
          | (k', none) => k'
          | (k', some newEarliestAvailableNonce) =>
            k'.SetEarliestAvailableAttestationNonce newEarliestAvailableNonce

/-- The function `EndBlocker`: valset handling, then data commitments, then pruning. -/
def EndBlocker (fuel : Nat) (ctx : Ctx) (k : Keeper) : Except Fault Keeper :=
  match handleValsetRequest ctx k with
  | .error e => .error e
  | .ok k1 =>
    match handleDataCommitmentRequest fuel ctx k1 with
    | .error e => .error e
    | .ok k2 => .ok (maybePruneAttestations ctx k2)

/-! ## Runs of blocks -/

/-- What the rest of the chain fixes before a block ends: the block context, the bonded
validator set, the last unbonding height and the window parameter, and the number of
iterations granted to the data commitment loop. -/
structure Block where
  ctx : Ctx
  bonded : List BridgeValidator
  lastUnbondingHeight : Nat
  dataCommitmentWindow : Nat
  fuel : Nat
  deriving DecidableEq, Repr

/-- The keeper as a block finds it: the log and its cursors are those the previous block
left, the rest comes from the chain. -/
def Block.enter (b : Block) (k : Keeper) : Keeper :=
  { k with bonded := b.bonded, lastUnbondingHeight := b.lastUnbondingHeight,
           dataCommitmentWindow := b.dataCommitmentWindow }

/-- A sequence of `EndBlocker` invocations, one per block, stopping at the first fault. -/
def runBlocks : List Block → Keeper → Except Fault Keeper
  | [], k => .ok k
  | b :: bs, k =>
    match EndBlocker b.fuel b.ctx (b.enter k) with
    | .error e => .error e
    | .ok k' => runBlocks bs k'

/-- The keeper before the first block: an empty log, the latest nonce uninitialised. -/
def emptyKeeper : Keeper :=
  { entries := [], latestNonce := none, earliestAvailableNonce := 1, lastUnbondingHeight := 0,
    dataCommitmentWindow := 0, bonded := [], requests := [] }

/-! ## The enqueuing loops of the orchestrator (`orchestrator.go`) -/

/-- The `for` loop of `EnqueueMissingEvents`, at the index `i`, with the nonces pushed so
far. `cancelled i` tells whether the signal channel or the context is seen done in iteration
`i`, in which case the function returns without pushing. `fuel` bounds the iterations;
`latestNonce + 1 - i` suffices. -/
def enqueueMissingLoop (latestNonce : Nat) (cancelled : Nat → Bool) :
    Nat → Nat → List Nat → List Nat
  | 0, _, queue => queue
  | fuel + 1, i, queue =>
    if i ≤ latestNonce then
      if cancelled i then
        queue
      else
        enqueueMissingLoop latestNonce cancelled fuel (i + 1) (queue ++ [latestNonce - i])
    else
      queue

/-- The function `EnqueueMissingEvents`. `unbonding` is what `getLastUnbondingAttestationNonce`
returns; an error is handed back, otherwise the loop runs from the last unbonding nonce to the
latest nonce and the function returns `nil`. The result is the content of the queue. -/
def EnqueueMissingEvents (unbonding : Except String Nat) (latestNonce : Nat)
    (cancelled : Nat → Bool) (queue : List Nat) : Except String (List Nat) :=
  match unbonding with
  | .error err => .error err
  | .ok lastUnbondingAttestationNonce =>
    .ok (enqueueMissingLoop latestNonce cancelled (latestNonce + 1 - lastUnbondingAttestationNonce)
      lastUnbondingAttestationNonce queue)

/-- The inner `for` loop of `StartNewEventsListener`, at the nonce `n`: every nonce up to the
polled one is pushed, unless the signal channel is seen closed, which ends the listener. The
second component tells whether that happened. -/
def listenerEnqueueLoop (lastNonce : Nat) (cancelled : Nat → Bool) :
    Nat → Nat → List Nat → List Nat × Bool
  | 0, _, queue => (queue, false)
  | fuel + 1, n, queue =>
    if n ≤ lastNonce then
      if cancelled n then
        (queue, true)
      else
        listenerEnqueueLoop lastNonce cancelled fuel (n + 1) (queue ++ [n])
    else
      (queue, false)

/-- The state of the listener: its cursor, the content of the queue, and what it returned
once it has returned (`some none` is `nil`). -/
structure Listener where
  currentNonce : Nat
  queue : List Nat
  returned : Option (Option String)
  deriving DecidableEq, Repr

/-- What the listener's `select` can receive. -/
inductive ListenerEvent where
  | signal
  | ctxDone
  | tick (polled : Except String Nat) (cancelled : Nat → Bool)

/-- One round of the outer `for` of `StartNewEventsListener`. On a tick the latest nonce is
polled; when it differs from the cursor, the nonces from the cursor to it are pushed and the
cursor moves to it. -/
def listenerStep (l : Listener) : ListenerEvent → Listener
  | .signal => { l with returned := some none }
  | .ctxDone => { l with returned := some none }
  | .tick polled cancelled =>
    match polled with
    | .error err => { l with returned := some (some err) }
    | .ok lastNonce =>
      if l.currentNonce == lastNonce then
        l
      else
        match listenerEnqueueLoop lastNonce cancelled (lastNonce + 1 - l.currentNonce)
            l.currentNonce l.queue with
        | (queue, true) => { l with queue := queue, returned := some none }
        | (queue, false) => { currentNonce := lastNonce, queue := queue, returned := none }

/-- The function `StartNewEventsListener` over the events its `select` receives, until it
returns. -/
def StartNewEventsListener : List ListenerEvent → Listener → Listener
  | [], l => l
  | e :: es, l =>
    match l.returned with
    | some _ => l
    | none => StartNewEventsListener es (listenerStep l e)

/-- No cancellation is observed. -/
def neverCancelled : Nat → Bool := fun _ => false

/-! ## Chains of appends and the invariant of the nonces -/

/-- The keeper `k'` comes from `k` by a chain of successful appends. -/
inductive Appends : Keeper → Keeper → Prop where
  | refl (k : Keeper) : Appends k k
  | step {k k' k'' : Keeper} (a : Attestation) (h : k.SetAttestationRequest a = .ok k')
      (t : Appends k' k'') : Appends k k''

/-- The requests made so far carry the nonces `1, 2, 3, …` and the latest nonce is their
number. -/
def NoncesConsecutive (k : Keeper) : Prop :=
  k.requests.map Attestation.GetNonce = List.range' 1 k.requests.length ∧
    k.GetLatestAttestationNonce = k.requests.length

/-! ## Two blocks of a run -/

/-- The block of scenario S2: height 1300, window 400, one bonded validator. -/
def catchUpBlock : Block :=
  { ctx := { BlockHeight := 1300, BlockTime := 0 }, bonded := [{ Power := 100, EthereumAddress := "A" }],
    lastUnbondingHeight := 0, dataCommitmentWindow := 400, fuel := 4 }

/-- A later block in which the power moved by a tenth and another window elapsed. -/
def powerChangeBlock : Block :=
  { ctx := { BlockHeight := 1700, BlockTime := 9 },
    bonded := [{ Power := 90, EthereumAddress := "A" }, { Power := 10, EthereumAddress := "B" }],
    lastUnbondingHeight := 0, dataCommitmentWindow := 400, fuel := 2 }

/-- The keeper after the two blocks `catchUpBlock` and `powerChangeBlock`. -/
def keeperAfterTwoBlocks : Keeper :=
  match runBlocks [catchUpBlock, powerChangeBlock] emptyKeeper with
  | .ok k => k
  | .error _ => emptyKeeper

/-! ## The outcome of the valset trigger -/

/-- The valset `GetCurrentValset` builds from the bonded set. -/
def currentValset (ctx : Ctx) (k : Keeper) : Valset :=
  { Nonce := k.GetLatestAttestationNonce + 1, Members := k.bonded,
    Height := ctx.BlockHeight, Time := ctx.BlockTime }

/-- The keeper after the current valset was appended to the log. -/
def withCurrentValset (ctx : Ctx) (k : Keeper) : Keeper :=
  { k with
    entries := .decoded (.valset (currentValset ctx k)) ::
      k.entries.filter (fun e => e.key != k.GetLatestAttestationNonce + 1)
    latestNonce := some (k.GetLatestAttestationNonce + 1)
    requests := k.requests ++ [.valset (currentValset ctx k)] }

/-- No attestation has been stored yet: the latest nonce is uninitialised or still `0`. -/
def noAttestationYet (k : Keeper) : Prop :=
  k.latestNonce = none ∨ k.latestNonce = some 0

/-- One of the three conditions for a new valset holds. -/
def valsetTrigger (ctx : Ctx) (k : Keeper) : Prop :=
  noAttestationYet k ∨ k.lastUnbondingHeight = ctx.BlockHeight ∨
    ∃ lv : Valset, k.GetLatestValset = .ok lv ∧
      PowerDiff k.bonded lv.Members > SignificantPowerDifferenceThreshold

/-- The valset with the single member `A` of power 20, stored at nonce 1. -/
def firstValset : Valset :=
  { Nonce := 1, Members := [{ Power := 20, EthereumAddress := "A" }], Height := 5, Time := 0 }

/-- A keeper whose log holds `firstValset`, with the given bonded set and unbonding height. -/
def keeperWithFirstValset (bonded : List BridgeValidator) (unbondingHeight : Nat) : Keeper :=
  { entries := [.decoded (.valset firstValset)], latestNonce := some 1,
    earliestAvailableNonce := 1, lastUnbondingHeight := unbondingHeight,
    dataCommitmentWindow := 400, bonded := bonded, requests := [.valset firstValset] }

/-! ## The outcome of a catch-up -/

/-- The end block of the last stored data commitment, `0` when none is stored: the block at
which the next data commitment begins. -/
def lastEndBlock (k : Keeper) : Nat :=
  match k.lastDataCommitmentFrom k.GetLatestAttestationNonce with
  | some d => d.EndBlock
  | none => 0

/-- The `i`-th data commitment of a catch-up that starts at the end block `e` with the nonce
`n + 1`, for the window `W`. -/
def catchUpCommitment (ctx : Ctx) (n e W i : Nat) : Attestation :=
  .dataCommitment { Nonce := n + 1 + i, BeginBlock := e + i * W, EndBlock := e + (i + 1) * W,
                    Time := ctx.BlockTime }

/-- The keeper after the next data commitment was appended. -/
def withNextDataCommitment (ctx : Ctx) (k : Keeper) : Keeper :=
  { k with
    entries := .decoded (.dataCommitment (k.NextDataCommitment ctx)) ::
      k.entries.filter (fun e => e.key != k.GetLatestAttestationNonce + 1)
    latestNonce := some (k.GetLatestAttestationNonce + 1)
    requests := k.requests ++ [.dataCommitment (k.NextDataCommitment ctx)] }

/-! ## Logs to prune -/

/-- One week, in nanoseconds. -/
def Week : Int := 7 * 24 * Hour

/-- A valset attestation with the given nonce and creation time. -/
def valsetAt (nonce : Nat) (time : Int) : Attestation :=
  .valset { Nonce := nonce, Members := [{ Power := 100, EthereumAddress := "A" }],
            Height := nonce, Time := time }

/-- A keeper whose log holds a single attestation, created at time `0`, at nonce 1. -/
def singleAttestationKeeper : Keeper :=
  { entries := [.decoded (valsetAt 1 0)], latestNonce := some 1, earliestAvailableNonce := 1,
    lastUnbondingHeight := 0, dataCommitmentWindow := 400, bonded := [],
    requests := [valsetAt 1 0] }

/-- A keeper whose log holds the nonces 1, 2, 3, created at weeks 0, 2 and 3. -/
def threeAttestationKeeper : Keeper :=
  { entries := [.decoded (valsetAt 3 (3 * Week)), .decoded (valsetAt 2 (2 * Week)),
                .decoded (valsetAt 1 0)],
    latestNonce := some 3, earliestAvailableNonce := 1, lastUnbondingHeight := 0,
    dataCommitmentWindow := 400, bonded := [],
    requests := [valsetAt 1 0, valsetAt 2 (2 * Week), valsetAt 3 (3 * Week)] }

/-- A block ending nine weeks after time `0`. -/
def nineWeeksCtx : Ctx := { BlockHeight := 1000, BlockTime := 9 * Week }

/-! ## The invariant of the log and a log with an unreadable entry -/

/-- Every nonce from the earliest available one to the latest one has an entry in the log. -/
def EveryNonceStored (k : Keeper) : Prop :=
  ∀ n, k.earliestAvailableNonce ≤ n → n ≤ k.GetLatestAttestationNonce → (k.entryAt n).isSome

/-- A keeper whose log holds the nonces 1, 2, 3, created at weeks 0, 2 and 3, where the bytes
stored at nonce 2 do not decode. -/
def unreadableSecondKeeper : Keeper :=
  { entries := [.decoded (valsetAt 3 (3 * Week)), .garbled 2, .decoded (valsetAt 1 0)],
    latestNonce := some 3, earliestAvailableNonce := 1, lastUnbondingHeight := 0,
    dataCommitmentWindow := 400, bonded := [],
    requests := [valsetAt 1 0, valsetAt 2 (2 * Week), valsetAt 3 (3 * Week)] }

/-! ## The processor of the orchestrator (`orchestrator.go`) -/

/-- The message that confirms a valset (`types.MsgValsetConfirm`). -/
structure MsgValsetConfirm where
  Nonce : Nat
  Orchestrator : String
  EthAddress : String
  Signature : String
  deriving DecidableEq, Repr

/-- The message that confirms a data commitment (`types.MsgDataCommitmentConfirm`). -/
structure MsgDataCommitmentConfirm where
  Nonce : Nat
  BeginBlock : Nat
  EndBlock : Nat
  Commitment : String
  EthAddress : String
  ValidatorAddress : String
  Signature : String
  deriving DecidableEq, Repr

/-- A message handed to the broadcaster. -/
inductive Msg where
  | valsetConfirm (m : MsgValsetConfirm)
  | dataCommitmentConfirm (m : MsgDataCommitmentConfirm)
  deriving DecidableEq, Repr

/-- Modelled from the spec: `utils.IsEmptyMsgValsetConfirm` (missing), which recognises the
empty value the querier returns while no confirm is recorded. -/
def IsEmptyMsgValsetConfirm (m : MsgValsetConfirm) : Bool :=
  m == { Nonce := 0, Orchestrator := "", EthAddress := "", Signature := "" }

/-- Modelled from the spec: `utils.IsEmptyMsgDataCommitmentConfirm` (missing), which
recognises the empty value the querier returns while no confirm is recorded. -/
def IsEmptyMsgDataCommitmentConfirm (m : MsgDataCommitmentConfirm) : Bool :=
  m == { Nonce := 0, BeginBlock := 0, EndBlock := 0, Commitment := "", EthAddress := "",
         ValidatorAddress := "", Signature := "" }

/-- The interface `api.QGBQuerierI` as `Process` uses it: every query answers or fails with
an error; an attestation that is not indexed is `none`. -/
structure QGBQuerier where
  QueryLastUnbondingAttestationNonce : Except String Nat
  QueryAttestationByNonce : Nat → Except String (Option Attestation)
  QueryValsetByNonce : Nat → Except String Valset
  QueryLastValsetBeforeNonce : Nat → Except String Valset
  QueryValsetConfirmByOrchestratorAddress : Nat → String → Except String MsgValsetConfirm
  QueryDataCommitmentConfirmByOrchestratorAddress :
    Nat → String → Except String MsgDataCommitmentConfirm
  GetStorageHeightsMilestone : Int

/-- The orchestrator: its two addresses (`OrchEthAddress` is the string `Hex()` returns), the
queriers, the signing functions, the broadcaster and the start height. -/
structure Orchestrator where
  OrchEthAddress : String
  OrchAccAddress : String
  qgbQuerier : QGBQuerier
  QueryCommitment : Nat → Nat → Except String (List Nat)
  SignBytes : Valset → Except String (List Nat)
  DataCommitmentTupleRootSignBytes : Nat → List Nat → List Nat
  NewEthereumSignature : List Nat → Except String String
  CommitmentString : List Nat → String
  BroadcastTx : Msg → Except String String
  startHeight : Int

/-- What `Process` leaves behind: the nonces pushed onto the requeue channel and the messages
handed to `BroadcastTx`, oldest first. -/
structure Channels where
  requeue : List Nat
  broadcasts : List Msg
  deriving DecidableEq, Repr

/-- The function `errors.Wrap`: the message is put in front of the error. -/
def Wrap (err : String) (message : String) : String :=
  message ++ ": " ++ err

/-- The function `ValidatorPartOfValset`: whether a member carries the address. -/
def ValidatorPartOfValset : List BridgeValidator → String → Bool
  | [], _ => false
  | val :: members, ethAddr =>
    if val.EthereumAddress == ethAddr then true else ValidatorPartOfValset members ethAddr

/-- The function `ProcessValsetEvent`: sign the valset, build the confirm and broadcast it. -/
def ProcessValsetEvent (orch : Orchestrator) (valset : Valset) (ch : Channels) :
    Channels × Option String :=
  match orch.SignBytes valset with
  | .error err => (ch, some err)
  | .ok signBytes =>
    match orch.NewEthereumSignature signBytes with
    | .error err => (ch, some err)
    | .ok signature =>
      let msg := Msg.valsetConfirm
        { Nonce := valset.Nonce, Orchestrator := orch.OrchAccAddress,
          EthAddress := orch.OrchEthAddress, Signature := signature }
      match orch.BroadcastTx msg with
      | .error err => ({ ch with broadcasts := ch.broadcasts ++ [msg] }, some err)
      | .ok _ => ({ ch with broadcasts := ch.broadcasts ++ [msg] }, none)

/-- The function `ProcessDataCommitmentEvent`: query the commitment of the range, sign the
tuple root, build the confirm and broadcast it. -/
def ProcessDataCommitmentEvent (orch : Orchestrator) (dc : DataCommitment) (ch : Channels) :
    Channels × Option String :=
  match orch.QueryCommitment dc.BeginBlock dc.EndBlock with
  | .error err => (ch, some err)
  | .ok commitment =>
    let dataRootHash := orch.DataCommitmentTupleRootSignBytes dc.Nonce commitment
    match orch.NewEthereumSignature dataRootHash with
    | .error err => (ch, some err)
    | .ok dcSig =>
      let msg := Msg.dataCommitmentConfirm
        { Nonce := dc.Nonce, BeginBlock := dc.BeginBlock, EndBlock := dc.EndBlock,
          Commitment := orch.CommitmentString commitment, EthAddress := orch.OrchEthAddress,
          ValidatorAddress := orch.OrchAccAddress, Signature := dcSig }
      match orch.BroadcastTx msg with
      | .error err => ({ ch with broadcasts := ch.broadcasts ++ [msg] }, some err)
      | .ok _ => ({ ch with broadcasts := ch.broadcasts ++ [msg] }, none)

/-- The valset that signs an attestation (lines 288-304 of `Process`): the valset of nonce 1
for the attestation of nonce 1, else the last valset before the attestation's nonce. -/
def querySigningValset (q : QGBQuerier) (att : Attestation) : Except String Valset :=
  if att.GetNonce == 1 then
    q.QueryValsetByNonce att.GetNonce
  else
    q.QueryLastValsetBeforeNonce att.GetNonce

/-- The `switch` of `Process` on the type of the attestation (lines 310-367). An attestation
of this model is a valset or a data commitment, so the failed type assertions and the unknown
type of the source do not arise. -/
def processAttestation (orch : Orchestrator) (nonce : Nat) (att : Attestation) (ch : Channels) :
    Channels × Option String :=
  match att with
  | .valset vs =>
    if (vs.Height : Int) > orch.qgbQuerier.GetStorageHeightsMilestone &&
        (vs.Height : Int) ≤ orch.startHeight then
      ({ ch with requeue := ch.requeue ++ [nonce] }, none)
    else
      match orch.qgbQuerier.QueryValsetConfirmByOrchestratorAddress nonce orch.OrchAccAddress with
      | .error err => (ch, some (Wrap err ("valset " ++ toString nonce)))
      | .ok resp =>
        if !IsEmptyMsgValsetConfirm resp then
          (ch, none)
        else
          match ProcessValsetEvent orch vs ch with
          | (ch', some err) => (ch', some (Wrap err ("valset " ++ toString nonce)))
          | (ch', none) => (ch', none)
  | .dataCommitment dc =>
    if (dc.EndBlock : Int) > orch.qgbQuerier.GetStorageHeightsMilestone &&
        (dc.EndBlock : Int) ≤ orch.startHeight then
      ({ ch with requeue := ch.requeue ++ [nonce] }, none)
    else
      match orch.qgbQuerier.QueryDataCommitmentConfirmByOrchestratorAddress dc.Nonce
          orch.OrchAccAddress with
      | .error err => (ch, some (Wrap err ("data commitment " ++ toString nonce)))
      | .ok resp =>
        if !IsEmptyMsgDataCommitmentConfirm resp then
          (ch, none)
        else
          match ProcessDataCommitmentEvent orch dc ch with
          | (ch', some err) => (ch', some (Wrap err ("data commitment " ++ toString nonce)))
          | (ch', none) => (ch', none)

/-- The function `Process`. The result is the state of the channels and the error returned,
`none` for `nil`. -/
def Process (orch : Orchestrator) (nonce : Nat) (ch : Channels) : Channels × Option String :=
  match orch.qgbQuerier.QueryLastUnbondingAttestationNonce with
  | .error err => (ch, some err)
  | .ok lastUnbondingNonce =>
    if nonce < lastUnbondingNonce then
      (ch, none)
    else
      match orch.qgbQuerier.QueryAttestationByNonce nonce with
      | .error err => (ch, some err)
      | .ok none => ({ ch with requeue := ch.requeue ++ [nonce] }, none)
      | .ok (some att) =>
        match querySigningValset orch.qgbQuerier att with
        | .error err => (ch, some err)
        | .ok previousValset =>
          if !ValidatorPartOfValset previousValset.Members orch.OrchEthAddress then
            (ch, none)
          else
            processAttestation orch nonce att ch

/-! ## The retrier and the loop of the processor -/

/-- The `for` loop of `Retrier.Retry`, at the index `i` with the error of the last call.
`ctxDone i` tells whether the context is seen done in iteration `i`. `fuel` bounds the
iterations; `retriesNumber + 1 - i` suffices. -/
def retryLoop {σ : Type} (retriesNumber : Int) (ctxDone : Nat → Bool) (nonce : Nat)
    (retryMethod : Nat → σ → σ × Option String) : Nat → Nat → Option String → σ → σ × Option String
  | 0, _, err, s => (s, err)
  | fuel + 1, i, err, s =>
    if (i : Int) ≤ retriesNumber then
      if ctxDone i then
        (s, none)
      else
        match retryMethod nonce s with
        | (s', none) => (s', none)
        | (s', some e) => retryLoop retriesNumber ctxDone nonce retryMethod fuel (i + 1) (some e) s'
    else
      (s, err)

/-- The function `Retrier.Retry`. The state `σ` is what the retried method acts on, the requeue
channel included; the result is the state left and the error returned, `none` for `nil`. -/
def Retry {σ : Type} (retriesNumber : Int) (ctxDone : Nat → Bool) (nonce : Nat)
    (retryMethod : Nat → σ → σ × Option String) (s : σ) : σ × Option String :=
  retryLoop retriesNumber ctxDone nonce retryMethod (retriesNumber + 1).toNat 0 none s

/-- The state of the nonces processor: what `Process` acts on, whether the signal channel was
closed, and what `ProcessNonces` returned once it has returned (`some none` is `nil`). -/
structure Processor (σ : Type) where
  world : σ
  signalClosed : Bool
  returned : Option (Option String)

/-- What the `select` of `ProcessNonces` can receive. -/
inductive ProcessorEvent where
  | ctxDone
  | nonce (n : Nat)
  deriving DecidableEq, Repr

/-- One round of the `for` of `ProcessNonces`: a dequeued nonce is processed, a failure is
retried through the retrier with `Process` as the method, and a failed retry closes the
signal channel and returns its error. -/
def processNoncesStep {σ : Type} (process : Nat → σ → σ × Option String)
    (retry : Nat → (Nat → σ → σ × Option String) → σ → σ × Option String)
    (p : Processor σ) : ProcessorEvent → Processor σ
  | .ctxDone => { p with returned := some none }
  | .nonce nonce =>
    match process nonce p.world with
    | (w, none) => { p with world := w }
    | (w, some _) =>
      match retry nonce process w with
      | (w', some err) => { world := w', signalClosed := true, returned := some (some err) }
      | (w', none) => { p with world := w' }

/-- The function `ProcessNonces` over the events its `select` receives, until it returns. -/
def ProcessNonces {σ : Type} (process : Nat → σ → σ × Option String)
    (retry : Nat → (Nat → σ → σ × Option String) → σ → σ × Option String) :
    List ProcessorEvent → Processor σ → Processor σ
  | [], p => p
  | e :: es, p =>
    match p.returned with
    | some _ => p
    | none => ProcessNonces process retry es (processNoncesStep process retry p e)

/-- The context is never seen done. -/
def neverDone : Nat → Bool := fun _ => false

/-- The state after `j` successive calls of the method on the nonce. -/
def stateAfter {σ : Type} (op : Nat → σ → σ × Option String) (nonce : Nat) (s : σ) : Nat → σ
  | 0 => s
  | j + 1 => (op nonce (stateAfter op nonce s j)).1

/-- What the call number `j + 1` of the method on the nonce returns. -/
def resultOfCall {σ : Type} (op : Nat → σ → σ × Option String) (nonce : Nat) (s : σ)
    (j : Nat) : Option String :=
  (op nonce (stateAfter op nonce s j)).2

/-- The method with a record of the nonces it was called with. -/
def counted {σ : Type} (op : Nat → σ → σ × Option String) :
    Nat → σ × List Nat → (σ × List Nat) × Option String :=
  fun n p => (((op n p.1).1, p.2 ++ [n]), (op n p.1).2)

/-! ## Notions and samples for the processor -/

/-- The querier already holds a confirm of this orchestrator for the attestation of the
nonce: the query for the type of the attestation returns a message that is not empty. -/
def alreadyConfirmed (orch : Orchestrator) (nonce : Nat) : Attestation → Prop
  | .valset _ =>
    ∃ resp, orch.qgbQuerier.QueryValsetConfirmByOrchestratorAddress nonce orch.OrchAccAddress =
      .ok resp ∧ IsEmptyMsgValsetConfirm resp = false
  | .dataCommitment _ =>
    ∃ resp, orch.qgbQuerier.QueryDataCommitmentConfirmByOrchestratorAddress nonce
      orch.OrchAccAddress = .ok resp ∧ IsEmptyMsgDataCommitmentConfirm resp = false

/-- The storage has not caught up with the attestation: its height (valset) or end block
(data commitment) is above the milestone and not above the start height. -/
def notYetReady (orch : Orchestrator) : Attestation → Prop
  | .valset vs =>
    (vs.Height : Int) > orch.qgbQuerier.GetStorageHeightsMilestone ∧
      (vs.Height : Int) ≤ orch.startHeight
  | .dataCommitment dc =>
    (dc.EndBlock : Int) > orch.qgbQuerier.GetStorageHeightsMilestone ∧
      (dc.EndBlock : Int) ≤ orch.startHeight

/-- A valset at nonce 7 and height 50 whose only member has the address `0xA`. -/
def seventhValset : Valset :=
  { Nonce := 7, Members := [{ Power := 100, EthereumAddress := "0xA" }], Height := 50, Time := 0 }

/-- A querier that indexes `seventhValset` at nonce 7 and nothing else, whose last unbonding
nonce is 1, and that holds a valset confirm of the account `celestia1orch` for nonce 7. -/
def sampleQuerier (milestone : Int) : QGBQuerier :=
  { QueryLastUnbondingAttestationNonce := .ok 1
    QueryAttestationByNonce := fun n =>
      if n = 7 then .ok (some (.valset seventhValset)) else .ok none
    QueryValsetByNonce := fun _ => .ok seventhValset
    QueryLastValsetBeforeNonce := fun _ => .ok seventhValset
    QueryValsetConfirmByOrchestratorAddress := fun n a =>
      if n = 7 ∧ a = "celestia1orch" then
        .ok { Nonce := 7, Orchestrator := "celestia1orch", EthAddress := "0xA", Signature := "5a" }
      else
        .ok { Nonce := 0, Orchestrator := "", EthAddress := "", Signature := "" }
    QueryDataCommitmentConfirmByOrchestratorAddress := fun _ _ =>
      .ok { Nonce := 0, BeginBlock := 0, EndBlock := 0, Commitment := "", EthAddress := "",
            ValidatorAddress := "", Signature := "" }
    GetStorageHeightsMilestone := milestone }

/-- An orchestrator of the account `celestia1orch` over `sampleQuerier`, with the given
ethereum address, storage milestone and start height. -/
def sampleOrchestrator (ethAddress : String) (milestone startHeight : Int) : Orchestrator :=
  { OrchEthAddress := ethAddress
    OrchAccAddress := "celestia1orch"
    qgbQuerier := sampleQuerier milestone
    QueryCommitment := fun _ _ => .ok []
    SignBytes := fun _ => .ok []
    DataCommitmentTupleRootSignBytes := fun _ c => c
    NewEthereumSignature := fun _ => .ok "5a"
    CommitmentString := fun _ => ""
    BroadcastTx := fun _ => .ok "hash"
    startHeight := startHeight }

/-- Channels on which nothing was sent. -/
def noChannels : Channels := { requeue := [], broadcasts := [] }

/-! ## Samples for the retrier -/

/-- A method on a counter of its calls that fails until the counter reaches `good`. -/
def succeedsFrom (good : Nat) : Nat → Nat → Nat × Option String :=
  fun _ calls => (calls + 1, if good ≤ calls then none else some "not yet")

/-- The processor before its first event: the world, the signal channel open. -/
def freshProcessor {σ : Type} (w : σ) : Processor σ :=
  { world := w, signalClosed := false, returned := none }

/-! ## Keccak-256 (`crypto.Keccak256Hash`)

The permutation Keccak-f[1600] on 25 lanes of 64 bits and the sponge of rate 136 bytes with
the padding of the original Keccak, as go-ethereum computes it. A byte is a natural number
taken modulo 256. -/

/-- The round constants of Keccak-f[1600]. -/
def roundConstants : List Nat :=
  [0x0000000000000001, 0x0000000000008082, 0x800000000000808A, 0x8000000080008000,
   0x000000000000808B, 0x0000000080000001, 0x8000000080008081, 0x8000000000008009,
   0x000000000000008A, 0x0000000000000088, 0x0000000080008009, 0x000000008000000A,
   0x000000008000808B, 0x800000000000008B, 0x8000000000008089, 0x8000000000008003,
   0x8000000000008002, 0x8000000000000080, 0x000000000000800A, 0x800000008000000A,
   0x8000000080008081, 0x8000000000008080, 0x0000000080000001, 0x8000000080008008]

/-- The rotation offsets of the step rho, for the lane `x + 5 * y`. -/
def rotationOffsets : List Nat :=
  [0, 1, 62, 28, 27,
   36, 44, 6, 55, 20,
   3, 10, 43, 25, 39,
   41, 45, 15, 21, 8,
   18, 2, 61, 56, 14]

/-- Rotation of a 64-bit lane to the left. -/
def rotl64 (x n : Nat) : Nat :=
  ((x <<< n) ||| (x >>> (64 - n))) % 2 ^ 64

/-- The lane at the coordinates `x`, `y`, both taken modulo 5. -/
def lane (st : List Nat) (x y : Nat) : Nat :=
  st.getD (x % 5 + 5 * (y % 5)) 0

/-- The parity of a column. -/
def column (st : List Nat) (x : Nat) : Nat :=
  lane st x 0 ^^^ lane st x 1 ^^^ lane st x 2 ^^^ lane st x 3 ^^^ lane st x 4

/-- The step theta. -/
def theta (st : List Nat) : List Nat :=
  (List.range 25).map fun i =>
    lane st (i % 5) (i / 5) ^^^ (column st (i % 5 + 4) ^^^ rotl64 (column st (i % 5 + 1)) 1)

/-- The steps rho and pi. -/
def rhoPi (st : List Nat) : List Nat :=
  (List.range 25).map fun i =>
    let x := (i % 5 + 3 * (i / 5)) % 5
    let y := i % 5
    rotl64 (lane st x y) (rotationOffsets.getD (x + 5 * y) 0)

/-- The step chi. -/
def chi (st : List Nat) : List Nat :=
  (List.range 25).map fun i =>
    lane st (i % 5) (i / 5) ^^^
      ((lane st (i % 5 + 1) (i / 5) ^^^ (2 ^ 64 - 1)) &&& lane st (i % 5 + 2) (i / 5))

/-- The step iota. -/
def iota (rc : Nat) (st : List Nat) : List Nat :=
  match st with
  | [] => []
  | a :: rest => (a ^^^ rc) :: rest

/-- The permutation Keccak-f[1600]: 24 rounds. -/
def keccakF (st : List Nat) : List Nat :=
  roundConstants.foldl (fun s rc => iota rc (chi (rhoPi (theta s)))) st

/-- The lane that eight bytes encode, least significant byte first. -/
def laneOfBytes (bs : List Nat) : Nat :=
  bs.foldr (fun b acc => b % 256 + 256 * acc) 0

/-- The eight bytes of a lane, least significant byte first. -/
def bytesOfLane (l : Nat) : List Nat :=
  (List.range 8).map fun i => (l >>> (8 * i)) % 256

/-- The padding of Keccak to a multiple of the rate of 136 bytes. -/
def keccakPad (bs : List Nat) : List Nat :=
  let q := 136 - bs.length % 136
  if q = 1 then bs ++ [0x81] else bs ++ [0x01] ++ List.replicate (q - 2) 0 ++ [0x80]

/-- One block of 136 bytes is absorbed into the state. -/
def absorbBlock (st : List Nat) (block : List Nat) : List Nat :=
  keccakF ((List.range 25).map fun i =>
    lane st (i % 5) (i / 5) ^^^ laneOfBytes ((block.drop (8 * i)).take 8))

/-- The given number of blocks is absorbed. -/
def absorb : Nat → List Nat → List Nat → List Nat
  | 0, st, _ => st
  | n + 1, st, bs => absorb n (absorbBlock st (bs.take 136)) (bs.drop 136)

/-- The digest Keccak-256 of a byte string: 32 bytes. -/
def Keccak256 (bs : List Nat) : List Nat :=
  let padded := keccakPad bs
  let st := absorb (padded.length / 136) (List.replicate 25 0) padded
  ((st.take 4).map bytesOfLane).flatten

/-! ## The encoder (`encode.go`) -/

/-- A value of 32 bytes (`common.Hash`). -/
structure Hash where
  bytes : List Nat
  size : bytes.length = 32

/-- The `len` bytes of a natural number, most significant byte first. -/
def bigEndian (len : Nat) (n : Nat) : List Nat :=
  (List.range len).map fun i => (n / 256 ^ (len - 1 - i)) % 256

/-- The packing of a `*big.Int` as `uint256` by go-ethereum (`math.U256Bytes`): the value
modulo `2 ^ 256`, in two's complement when it is negative, as 32 bytes. -/
def U256Bytes (v : Int) : List Nat :=
  bigEndian 32 (v % 2 ^ 256).toNat

/-- The statement `copy(checkpoint[:], checkpointBytes)` into a zeroed array of 32 bytes. -/
def leftAligned32 (bs : List Nat) : List Nat :=
  (bs ++ List.replicate 32 0).take 32

/-- The bytes of the word `checkpoint`. -/
def checkpointBytes : List Nat :=
  "checkpoint".toList.map Char.toNat

/-- Modelled from the spec: the method `checkpoint` of the contract ABI (the package
`wrappers` is missing), with the five inputs of the spec; its identifier is the first four
bytes of the Keccak-256 of its signature, which `Pack` puts in front of the arguments. -/
def checkpointMethodID : List Nat :=
  (Keccak256 ("checkpoint(bytes32,bytes32,uint256,uint256,bytes32)".toList.map Char.toNat)).take 4

/-- Modelled from the spec: `TwoThirdsThreshold` (missing, `x/qgb/types`), the value
`ceil(2 * total_power / 3)` computed from the members. -/
def Valset.TwoThirdsThreshold (v : Valset) : Nat :=
  (2 * totalPower v.Members + 2) / 3

/-- The bytes `qgbContractABI.Pack("checkpoint", …)` returns in `EncodeValsetConfirm`: the
method identifier and the five arguments, each a word of 32 bytes. The nonce and the
threshold go through `big.NewInt(int64(·))`. -/
def packCheckpoint (bridgeID : Hash) (valset : Valset) (vsHash : Hash) : List Nat :=
  checkpointMethodID ++ bridgeID.bytes ++ leftAligned32 checkpointBytes ++
    U256Bytes (toInt64 valset.Nonce) ++ U256Bytes (toInt64 valset.TwoThirdsThreshold) ++
    vsHash.bytes

/-- The function `EncodeValsetConfirm`: the Keccak-256 of the packed bytes without their
first four. -/
def EncodeValsetConfirm (bridgeID : Hash) (valset : Valset) (vsHash : Hash) : List Nat :=
  Keccak256 ((packCheckpoint bridgeID valset vsHash).drop 4)

/-- The 160 bytes of the claim: the bridge id, the word `checkpoint` padded with zeros on the
right, the nonce and the threshold as unsigned big-endian words, the valset hash. -/
def checkpointWords (bridgeID : Hash) (nonce threshold : Nat) (vsHash : Hash) : List Nat :=
  bridgeID.bytes ++ ([99, 104, 101, 99, 107, 112, 111, 105, 110, 116] ++ List.replicate 22 0) ++
    bigEndian 32 nonce ++ bigEndian 32 threshold ++ vsHash.bytes

/-- The hash of 32 zero bytes. -/
def zeroHash : Hash :=
  { bytes := List.replicate 32 0, size := rfl }

/-- A valset with the nonce `2 ^ 63` and one member of power 100. -/
def hugeNonceValset : Valset :=
  { Nonce := 2 ^ 63, Members := [{ Power := 100, EthereumAddress := "0xA" }], Height := 1,
    Time := 0 }

/-! ## Samples for the valset trigger -/

/-- A bonded set whose power difference to a valset with the single member `A` is exactly
one twentieth, which is below the `float64` nearest to `0.05`. -/
def oneTwentiethMembers : List BridgeValidator :=
  [{ Power := 19, EthereumAddress := "A" }, { Power := 1, EthereumAddress := "B" }]

/-- A bonded set whose power difference to a valset with the single member `A` is exactly
the `float64` nearest to `0.05`: `B` holds `3602879701896397` of the `2 ^ 56` units. -/
def atThresholdMembers : List BridgeValidator :=
  [{ Power := 68454714336031539, EthereumAddress := "A" },
   { Power := 3602879701896397, EthereumAddress := "B" }]

/-- A bonded set whose power difference to a valset with the single member `A` is one unit
of `2 ^ -56` above the `float64` nearest to `0.05`. -/
def aboveThresholdMembers : List BridgeValidator :=
  [{ Power := 68454714336031538, EthereumAddress := "A" },
   { Power := 3602879701896398, EthereumAddress := "B" }]

/-- The block at height 1700, nine weeks after `catchUpBlock`, with the same bonded set. -/
def nineWeeksLaterBlock : Block :=
  { ctx := { BlockHeight := 1700, BlockTime := 9 * Week },
    bonded := [{ Power := 100, EthereumAddress := "A" }],
    lastUnbondingHeight := 0, dataCommitmentWindow := 400, fuel := 2 }

/-- The block at height 1701, in which a validator began unbonding. -/
def unbondingBlock : Block :=
  { ctx := { BlockHeight := 1701, BlockTime := 9 * Week + 1 },
    bonded := [{ Power := 100, EthereumAddress := "A" }],
    lastUnbondingHeight := 1701, dataCommitmentWindow := 400, fuel := 1 }

/-- The keeper after `catchUpBlock` and `nineWeeksLaterBlock`: the nonces 1 to 4 are pruned
and the log holds the data commitment of nonce 5 alone. -/
def valsetPrunedKeeper : Keeper :=
  { entries := [.decoded (.dataCommitment
      { Nonce := 5, BeginBlock := 1200, EndBlock := 1600, Time := 9 * Week })],
    latestNonce := some 5, earliestAvailableNonce := 5, lastUnbondingHeight := 0,
    dataCommitmentWindow := 400, bonded := [{ Power := 100, EthereumAddress := "A" }],
    requests :=
      [.valset { Nonce := 1, Members := [{ Power := 100, EthereumAddress := "A" }],
                 Height := 1300, Time := 0 },
       .dataCommitment { Nonce := 2, BeginBlock := 0, EndBlock := 400, Time := 0 },
       .dataCommitment { Nonce := 3, BeginBlock := 400, EndBlock := 800, Time := 0 },
       .dataCommitment { Nonce := 4, BeginBlock := 800, EndBlock := 1200, Time := 0 },
       .dataCommitment { Nonce := 5, BeginBlock := 1200, EndBlock := 1600, Time := 9 * Week }] }

/-- A keeper with a valset at nonce 1, no data commitment, and the window `2 ^ 63`. -/
def hugeWindowKeeper : Keeper :=
  { entries := [.decoded (.valset firstValset)], latestNonce := some 1,
    earliestAvailableNonce := 1, lastUnbondingHeight := 0,
    dataCommitmentWindow := 9223372036854775808,
    bonded := firstValset.Members, requests := [.valset firstValset] }

/-! # Theorems -/

/-! ## Appending to the log -/

/-- A successful append took the nonce after the latest one and changed the log, the latest
nonce and the record of requests, nothing else. -/
theorem setAttestationRequest_ok {k k' : Keeper} {a : Attestation}
    (h : k.SetAttestationRequest a = .ok k') :
    a.GetNonce = k.GetLatestAttestationNonce + 1 ∧
    k' = { k with
      entries := .decoded a :: k.entries.filter (fun e => e.key != a.GetNonce)
      latestNonce := some a.GetNonce
      requests := k.requests ++ [a] } := by
  unfold Keeper.SetAttestationRequest at h
  split at h
  · rename_i hn
    injection h with h
    exact ⟨hn, h.symm⟩
  · cases h

/-- An append whose attestation carries the next nonce succeeds. -/
theorem setAttestationRequest_next (k : Keeper) (a : Attestation)
    (hn : a.GetNonce = k.GetLatestAttestationNonce + 1) :
    k.SetAttestationRequest a = .ok { k with
      entries := .decoded a :: k.entries.filter (fun e => e.key != a.GetNonce)
      latestNonce := some a.GetNonce
      requests := k.requests ++ [a] } := by
  unfold Keeper.SetAttestationRequest
  rw [if_pos hn]

theorem noncesConsecutive_set {k k' : Keeper} {a : Attestation}
    (h : k.SetAttestationRequest a = .ok k') (hk : NoncesConsecutive k) :
    NoncesConsecutive k' := by
  obtain ⟨hn, rfl⟩ := setAttestationRequest_ok h
  obtain ⟨h1, h2⟩ := hk
  refine ⟨?_, ?_⟩
  · simp only [List.map_append, List.map_cons, List.map_nil, List.length_append,
      List.length_singleton, h1]
    rw [List.range'_concat, hn, h2]
    simp [Nat.add_comm]
  · show a.GetNonce = (k.requests ++ [a]).length
    rw [hn, h2, List.length_append, List.length_singleton]

theorem noncesConsecutive_appends {k k' : Keeper} (t : Appends k k')
    (hk : NoncesConsecutive k) : NoncesConsecutive k' := by
  induction t with
  | refl _ => exact hk
  | step a h _ ih => exact ih (noncesConsecutive_set h hk)

theorem appends_trans {k k' k'' : Keeper} (t : Appends k k') (u : Appends k' k'') :
    Appends k k'' := by
  induction t with
  | refl _ => exact u
  | step a h _ ih => exact Appends.step a h (ih u)

theorem setDataCommitmentAttestation_appends {ctx : Ctx} {k k' : Keeper}
    (h : setDataCommitmentAttestation ctx k = .ok k') : Appends k k' := by
  unfold setDataCommitmentAttestation at h
  simp only at h
  split at h
  · cases h
  · rename_i k1 hk1
    injection h with h
    subst h
    exact Appends.step _ hk1 (Appends.refl _)

theorem dataCommitmentLoop_appends (ctx : Ctx) (W : Int) (fuel : Nat) :
    ∀ k k' : Keeper, dataCommitmentLoop ctx W fuel k = .ok k' → Appends k k' := by
  induction fuel with
  | zero =>
    intro k k' h
    simp [dataCommitmentLoop] at h
  | succ fuel ih =>
    intro k k' h
    unfold dataCommitmentLoop at h
    split at h
    · split at h
      · cases h
      · split at h
        · split at h
          · cases h
          · rename_i k1 hk1
            exact appends_trans (setDataCommitmentAttestation_appends hk1) (ih _ _ h)
        · injection h with h
          subst h
          exact Appends.refl _
    · split at h
      · split at h
        · cases h
        · rename_i k1 hk1
          exact appends_trans (setDataCommitmentAttestation_appends hk1) (ih _ _ h)
      · injection h with h
        subst h
        exact Appends.refl _

theorem putValsetRequest_appends {ctx : Ctx} {k k' : Keeper} {lv : Option Valset} {u : Nat}
    {s : Bool} (h : putValsetRequest ctx k lv u s = .ok k') : Appends k k' := by
  unfold putValsetRequest at h
  split at h
  · split at h
    · cases h
    · split at h
      · cases h
      · rename_i k1 hk1
        injection h with h
        subst h
        exact Appends.step _ hk1 (Appends.refl _)
  · injection h with h
    subst h
    exact Appends.refl _

theorem handleValsetRequest_appends {ctx : Ctx} {k k' : Keeper}
    (h : handleValsetRequest ctx k = .ok k') : Appends k k' := by
  unfold handleValsetRequest at h
  simp only at h
  split at h
  · cases h
  · split at h
    · split at h
      · split at h
        · injection h with h
          subst h
          exact Appends.refl _
        · cases h
      · exact putValsetRequest_appends h
    · exact putValsetRequest_appends h

/-! ## Pruning leaves the cursor of the latest nonce and the requests alone -/

theorem pruneLoop_frame (ctx : Ctx) (latest fuel : Nat) :
    ∀ (n : Nat) (k : Keeper),
      (pruneLoop ctx latest fuel n k).1.latestNonce = k.latestNonce ∧
      (pruneLoop ctx latest fuel n k).1.requests = k.requests ∧
      (pruneLoop ctx latest fuel n k).1.earliestAvailableNonce = k.earliestAvailableNonce := by
  induction fuel with
  | zero => intro n k; simp [pruneLoop]
  | succ fuel ih =>
    intro n k
    unfold pruneLoop
    simp only
    split
    · split
      · simp
      · split
        · simp
        · split
          · simp
          · split
            · simp
            · have := ih (n + 1) (k.DeleteAttestation n)
              simpa [Keeper.DeleteAttestation] using this
    · simp

theorem maybePruneAttestations_frame (ctx : Ctx) (k : Keeper) :
    (maybePruneAttestations ctx k).latestNonce = k.latestNonce ∧
    (maybePruneAttestations ctx k).requests = k.requests := by
  unfold maybePruneAttestations
  simp only
  split
  · simp
  · split
    · simp
    · split
      · simp
      · split
        · simp
        · split
          · simp
          · rename_i a _ _
            have hf := pruneLoop_frame ctx k.GetLatestAttestationNonce
              (k.GetLatestAttestationNonce - a.GetNonce) a.GetNonce k
            split
            · rename_i k1 heq
              rw [heq] at hf
              exact ⟨hf.1, hf.2.1⟩
            · rename_i k1 m heq
              rw [heq] at hf
              exact ⟨hf.1, hf.2.1⟩

theorem noncesConsecutive_endBlocker {fuel : Nat} {ctx : Ctx} {k k' : Keeper}
    (h : EndBlocker fuel ctx k = .ok k') (hk : NoncesConsecutive k) : NoncesConsecutive k' := by
  unfold EndBlocker at h
  split at h
  · cases h
  · rename_i k1 h1
    split at h
    · cases h
    · rename_i k2 h2
      injection h with h
      subst h
      have hk2 : NoncesConsecutive k2 :=
        noncesConsecutive_appends (dataCommitmentLoop_appends _ _ _ _ _ h2)
          (noncesConsecutive_appends (handleValsetRequest_appends h1) hk)
      obtain ⟨hl, hr⟩ := maybePruneAttestations_frame ctx k2
      unfold NoncesConsecutive Keeper.GetLatestAttestationNonce at *
      rw [hl, hr]
      exact hk2

theorem noncesConsecutive_runBlocks (blocks : List Block) :
    ∀ k k' : Keeper, runBlocks blocks k = .ok k' → NoncesConsecutive k → NoncesConsecutive k' := by
  induction blocks with
  | nil =>
    intro k k' h hk
    simp only [runBlocks] at h
    injection h with h
    subst h
    exact hk
  | cons b bs ih =>
    intro k k' h hk
    unfold runBlocks at h
    split at h
    · cases h
    · rename_i k1 h1
      exact ih k1 k' h (noncesConsecutive_endBlocker h1 hk)

/-- A result whose `toOption` is `some k` is `ok k`. -/
theorem ok_of_toOption {ε α : Type} {r : Except ε α} {a : α} (h : r.toOption = some a) :
    r = .ok a := by
  cases r with
  | error e => cases h
  | ok b =>
    injection h with h
    rw [h]

/-- C1. Starting from the empty store, after any sequence of `EndBlocker` invocations the
attestations requested by `handleValsetRequest` and `handleDataCommitmentRequest` carry, in
the order of their emission, the nonces `1, 2, 3, …` without gap or repeat, the latest nonce
is their number, and every single append raises the latest nonce by exactly one. -/
theorem emitted_nonces_consecutive (blocks : List Block) (k : Keeper)
    (h : runBlocks blocks emptyKeeper = .ok k) :
    k.requests.map Attestation.GetNonce = List.range' 1 k.requests.length ∧
    k.GetLatestAttestationNonce = k.requests.length ∧
    (∀ (k0 k1 : Keeper) (a : Attestation), k0.SetAttestationRequest a = .ok k1 →
      k1.GetLatestAttestationNonce = k0.GetLatestAttestationNonce + 1 ∧
      a.GetNonce = k0.GetLatestAttestationNonce + 1 ∧
      k1.requests = k0.requests ++ [a]) := by
  have hinv : NoncesConsecutive k :=
    noncesConsecutive_runBlocks blocks emptyKeeper k h ⟨rfl, rfl⟩
  refine ⟨hinv.1, hinv.2, ?_⟩
  intro k0 k1 a hset
  obtain ⟨hn, rfl⟩ := setAttestationRequest_ok hset
  exact ⟨hn, hn, rfl⟩

/-- C1 at two blocks: a valset and three data commitments, then a valset and one more data
commitment, with the nonces `1` to `6`. -/
theorem emitted_nonces_consecutive_witness :
    runBlocks [catchUpBlock, powerChangeBlock] emptyKeeper = .ok keeperAfterTwoBlocks ∧
    keeperAfterTwoBlocks.requests.length = 6 ∧
    keeperAfterTwoBlocks.requests.map Attestation.GetNonce = List.range' 1 6 :=
  have hrun : runBlocks [catchUpBlock, powerChangeBlock] emptyKeeper = .ok keeperAfterTwoBlocks :=
    ok_of_toOption (by decide!)
  have hlen : keeperAfterTwoBlocks.requests.length = 6 := by decide!
  ⟨hrun, hlen, hlen ▸ (emitted_nonces_consecutive _ _ hrun).1⟩

/-! ## The valset trigger -/

theorem getCurrentValset_bonded (ctx : Ctx) (k : Keeper) (hb : k.bonded ≠ []) :
    k.GetCurrentValset ctx = .ok (currentValset ctx k) := by
  unfold Keeper.GetCurrentValset currentValset
  have : k.bonded.isEmpty = false := by
    cases hk : k.bonded with
    | nil => exact absurd hk hb
    | cons _ _ => rfl
  simp [this]

theorem getCurrentValset_empty (ctx : Ctx) (k : Keeper) (hb : k.bonded = []) :
    k.GetCurrentValset ctx = .error ErrNoValidators := by
  unfold Keeper.GetCurrentValset
  simp [hb]

theorem putValsetRequest_bonded (ctx : Ctx) (k : Keeper) (hb : k.bonded ≠ [])
    (lv : Option Valset) (u : Nat) (s : Bool) :
    putValsetRequest ctx k lv u s =
      if lv.isNone || u == ctx.BlockHeight || s then .ok (withCurrentValset ctx k) else .ok k := by
  unfold putValsetRequest
  rw [getCurrentValset_bonded ctx k hb]
  have hset := setAttestationRequest_next k (.valset (currentValset ctx k)) rfl
  simp only [hset]
  rfl

/-- C2, amended. With a non-empty bonded set, and a latest valset that can be read whenever
an attestation has been stored, `handleValsetRequest` appends exactly the current valset when
no attestation has been stored yet, or the last unbonding height is the current height, or
the power difference to the latest valset is strictly greater than the `float64` constant
`0.05`; otherwise it leaves the keeper as it was. -/
theorem handleValsetRequest_trigger (ctx : Ctx) (k : Keeper) (hb : k.bonded ≠ [])
    (hlv : ¬ noAttestationYet k → ∃ lv : Valset, k.GetLatestValset = .ok lv) :
    (valsetTrigger ctx k → handleValsetRequest ctx k = .ok (withCurrentValset ctx k)) ∧
    (¬ valsetTrigger ctx k → handleValsetRequest ctx k = .ok k) := by
  by_cases hno : noAttestationYet k
  · have hcond : (k.CheckLatestAttestationNonce && k.GetLatestAttestationNonce != 0) = false := by
      rcases hno with h | h <;>
        simp [Keeper.CheckLatestAttestationNonce, Keeper.GetLatestAttestationNonce, h]
    have hrun : handleValsetRequest ctx k = .ok (withCurrentValset ctx k) := by
      unfold handleValsetRequest
      simp only [hcond, Bool.false_eq_true, if_false]
      rw [putValsetRequest_bonded ctx k hb]
      simp
    exact ⟨fun _ => hrun, fun hn => absurd (Or.inl hno) hn⟩
  · obtain ⟨lv, hlv⟩ := hlv hno
    have hcond : (k.CheckLatestAttestationNonce && k.GetLatestAttestationNonce != 0) = true := by
      unfold noAttestationYet at hno
      cases hl : k.latestNonce with
      | none => exact absurd (Or.inl hl) hno
      | some n =>
        have : n ≠ 0 := fun h0 => hno (Or.inr (by rw [hl, h0]))
        simp [Keeper.CheckLatestAttestationNonce, Keeper.GetLatestAttestationNonce, hl, this]
    have hrun : handleValsetRequest ctx k =
        if k.lastUnbondingHeight == ctx.BlockHeight ||
            decide (PowerDiff k.bonded lv.Members > SignificantPowerDifferenceThreshold)
        then .ok (withCurrentValset ctx k) else .ok k := by
      unfold handleValsetRequest
      simp only [hcond, hlv, if_true]
      rw [getCurrentValset_bonded ctx k hb]
      simp only
      rw [putValsetRequest_bonded ctx k hb]
      simp [currentValset, Keeper.GetLastUnBondingBlockHeight]
    constructor
    · intro ht
      rw [hrun]
      rcases ht with h | h | ⟨lv', hlv', hd⟩
      · exact absurd h hno
      · simp [h]
      · rw [hlv] at hlv'
        injection hlv' with hlv'
        subst hlv'
        simp [hd]
    · intro hnt
      rw [hrun]
      have h1 : ¬ k.lastUnbondingHeight = ctx.BlockHeight := fun h => hnt (Or.inr (Or.inl h))
      have h2 : ¬ PowerDiff k.bonded lv.Members > SignificantPowerDifferenceThreshold :=
        fun h => hnt (Or.inr (Or.inr ⟨lv, hlv, h⟩))
      simp [h1, h2]

/-- C2, amended, at four keepers at height 8 whose latest valset has the single member `A`.
A power difference that is exactly the `float64` constant `0.05`, without unbonding, stores
nothing; the next larger difference stores the valset; an unchanged bonded set with an
unbonding at this height stores the valset; a power difference of exactly one twentieth,
without unbonding, stores nothing. -/
theorem handleValsetRequest_trigger_witness :
    (PowerDiff atThresholdMembers firstValset.Members = SignificantPowerDifferenceThreshold ∧
      handleValsetRequest { BlockHeight := 8, BlockTime := 1 }
          (keeperWithFirstValset atThresholdMembers 7) =
        .ok (keeperWithFirstValset atThresholdMembers 7)) ∧
    (PowerDiff aboveThresholdMembers firstValset.Members > SignificantPowerDifferenceThreshold ∧
      handleValsetRequest { BlockHeight := 8, BlockTime := 1 }
          (keeperWithFirstValset aboveThresholdMembers 7) =
        .ok (withCurrentValset { BlockHeight := 8, BlockTime := 1 }
          (keeperWithFirstValset aboveThresholdMembers 7))) ∧
    (PowerDiff firstValset.Members firstValset.Members = 0 ∧
      handleValsetRequest { BlockHeight := 8, BlockTime := 1 }
          (keeperWithFirstValset firstValset.Members 8) =
        .ok (withCurrentValset { BlockHeight := 8, BlockTime := 1 }
          (keeperWithFirstValset firstValset.Members 8))) ∧
    (PowerDiff oneTwentiethMembers firstValset.Members = 1 / 20 ∧
      handleValsetRequest { BlockHeight := 8, BlockTime := 1 }
          (keeperWithFirstValset oneTwentiethMembers 7) =
        .ok (keeperWithFirstValset oneTwentiethMembers 7)) := by
  have hd : PowerDiff atThresholdMembers firstValset.Members =
      SignificantPowerDifferenceThreshold := by decide!
  have hup : PowerDiff aboveThresholdMembers firstValset.Members >
      SignificantPowerDifferenceThreshold := by decide!
  have hlow : PowerDiff oneTwentiethMembers firstValset.Members = 1 / 20 := by decide!
  have hbelow : ¬ ((1 : ℚ) / 20 > SignificantPowerDifferenceThreshold) := by
    unfold SignificantPowerDifferenceThreshold
    norm_num
  refine ⟨⟨hd, ?_⟩, ⟨hup, ?_⟩, ⟨by decide!, ?_⟩, ⟨hlow, ?_⟩⟩
  · refine (handleValsetRequest_trigger { BlockHeight := 8, BlockTime := 1 }
      (keeperWithFirstValset atThresholdMembers 7)
      (by decide) (fun _ => ⟨firstValset, rfl⟩)).2 ?_
    rintro (h | h | ⟨lv, hlv, hgt⟩)
    · rcases h with h | h <;> exact absurd h (by decide)
    · exact absurd h (by decide)
    · have hv : lv = firstValset := by
        have : (Except.ok firstValset : Except String Valset) = .ok lv := hlv
        injection this with this
        exact this.symm
      subst hv
      have hgt' : PowerDiff atThresholdMembers firstValset.Members >
          SignificantPowerDifferenceThreshold := hgt
      rw [hd] at hgt'
      exact absurd hgt' (lt_irrefl _)
  · exact (handleValsetRequest_trigger { BlockHeight := 8, BlockTime := 1 }
      (keeperWithFirstValset aboveThresholdMembers 7)
      (by decide) (fun _ => ⟨firstValset, rfl⟩)).1 (Or.inr (Or.inr ⟨firstValset, rfl, hup⟩))
  · exact (handleValsetRequest_trigger { BlockHeight := 8, BlockTime := 1 }
      (keeperWithFirstValset firstValset.Members 8)
      (by decide) (fun _ => ⟨firstValset, rfl⟩)).1 (Or.inr (Or.inl rfl))
  · refine (handleValsetRequest_trigger { BlockHeight := 8, BlockTime := 1 }
      (keeperWithFirstValset oneTwentiethMembers 7)
      (by decide) (fun _ => ⟨firstValset, rfl⟩)).2 ?_
    rintro (h | h | ⟨lv, hlv, hgt⟩)
    · rcases h with h | h <;> exact absurd h (by decide)
    · exact absurd h (by decide)
    · have hv : lv = firstValset := by
        have : (Except.ok firstValset : Except String Valset) = .ok lv := hlv
        injection this with this
        exact this.symm
      subst hv
      have hgt' : PowerDiff oneTwentiethMembers firstValset.Members >
          SignificantPowerDifferenceThreshold := hgt
      rw [hlow] at hgt'
      exact hbelow hgt'

/-- C2 fails as stated. After the block at height 1300 and time 0 and the block at height
1700 nine weeks later, pruning has deleted the nonces 1 to 4, the only valset among them, and
the log holds the data commitment of nonce 5 alone. At height 1701 the bonded set is not
empty and the last unbonding height is 1701, so the second condition holds, but the latest
valset cannot be read and `handleValsetRequest` panics instead of storing a valset. -/
theorem handleValsetRequest_panics_after_pruned_valset :
    runBlocks [catchUpBlock, nineWeeksLaterBlock] emptyKeeper = .ok valsetPrunedKeeper ∧
    (unbondingBlock.enter valsetPrunedKeeper).bonded ≠ [] ∧
    (unbondingBlock.enter valsetPrunedKeeper).lastUnbondingHeight =
      unbondingBlock.ctx.BlockHeight ∧
    handleValsetRequest unbondingBlock.ctx (unbondingBlock.enter valsetPrunedKeeper) =
      .error (.panic "couldn't find latest valset") :=
  ⟨ok_of_toOption (by decide!), by decide, by decide, rfl⟩

/-! ## Data commitment catch-up -/

theorem setDataCommitmentAttestation_eq (ctx : Ctx) (k : Keeper) :
    setDataCommitmentAttestation ctx k = .ok (withNextDataCommitment ctx k) := by
  unfold setDataCommitmentAttestation
  have hset := setAttestationRequest_next k (.dataCommitment (k.NextDataCommitment ctx)) rfl
  simp only [hset]
  rfl

theorem nextDataCommitment_eq (ctx : Ctx) (k : Keeper) :
    Attestation.dataCommitment (k.NextDataCommitment ctx) =
      catchUpCommitment ctx k.GetLatestAttestationNonce (lastEndBlock k) k.dataCommitmentWindow 0 := by
  unfold Keeper.NextDataCommitment catchUpCommitment lastEndBlock Keeper.GetDataCommitmentWindowParam
  simp

theorem lastDataCommitmentFrom_head (k : Keeper) (d : DataCommitment) (es : List Entry)
    (hk : k.entries = .decoded (.dataCommitment d) :: es) :
    k.lastDataCommitmentFrom d.Nonce = some d := by
  have hentry : k.entryAt d.Nonce = some (.decoded (.dataCommitment d)) := by
    unfold Keeper.entryAt
    rw [hk]
    simp [Entry.key, Attestation.GetNonce]
  cases hn : d.Nonce with
  | zero =>
    rw [hn] at hentry
    simp [Keeper.lastDataCommitmentFrom, hentry]
  | succ n =>
    rw [hn] at hentry
    simp [Keeper.lastDataCommitmentFrom, hentry]

theorem withNextDataCommitment_facts (ctx : Ctx) (k : Keeper) :
    lastEndBlock (withNextDataCommitment ctx k) = lastEndBlock k + k.dataCommitmentWindow ∧
    (withNextDataCommitment ctx k).GetLatestAttestationNonce = k.GetLatestAttestationNonce + 1 ∧
    (withNextDataCommitment ctx k).dataCommitmentWindow = k.dataCommitmentWindow ∧
    (withNextDataCommitment ctx k).HasDataCommitmentInStore = true ∧
    (withNextDataCommitment ctx k).requests = k.requests ++
      [catchUpCommitment ctx k.GetLatestAttestationNonce (lastEndBlock k) k.dataCommitmentWindow 0] := by
  have hlast : (withNextDataCommitment ctx k).lastDataCommitmentFrom
      (withNextDataCommitment ctx k).GetLatestAttestationNonce = some (k.NextDataCommitment ctx) :=
    lastDataCommitmentFrom_head (withNextDataCommitment ctx k) (k.NextDataCommitment ctx) _ rfl
  refine ⟨?_, rfl, rfl, ?_, ?_⟩
  · unfold lastEndBlock
    rw [hlast]
    rfl
  · unfold Keeper.HasDataCommitmentInStore
    rw [hlast]
    rfl
  · rw [← nextDataCommitment_eq]
    rfl

theorem toInt64_of_lt (n : Nat) (h : n < 2 ^ 63) : toInt64 n = (n : Int) := by
  have h64 : n % 2 ^ 64 = n := Nat.mod_eq_of_lt (by omega)
  unfold toInt64
  rw [h64, if_pos h]

theorem wrapInt64_of_range (i : Int) (h1 : -9223372036854775808 ≤ i)
    (h2 : i < 9223372036854775808) : wrapInt64 i = i := by
  unfold wrapInt64
  omega

/-- An `int64` is never below `-2 ^ 63`. -/
theorem wrapInt64_ge (i : Int) : -9223372036854775808 ≤ wrapInt64 i := by
  unfold wrapInt64
  omega

/-- One iteration of the loop when the height is less than a window past the last end
block, both below `2 ^ 63`: the loop stops and leaves the keeper as it is. -/
theorem dataCommitmentLoop_stop (ctx : Ctx) (k : Keeper) (fuel : Nat)
    (hh : ctx.BlockHeight < 2 ^ 63) (he : lastEndBlock k < 2 ^ 63)
    (hlt : ctx.BlockHeight < lastEndBlock k + k.dataCommitmentWindow) :
    dataCommitmentLoop ctx (k.dataCommitmentWindow : Int) (fuel + 1) k = .ok k := by
  unfold dataCommitmentLoop
  unfold lastEndBlock at hlt he
  unfold Keeper.HasDataCommitmentInStore Keeper.GetLastDataCommitment
  cases hd : k.lastDataCommitmentFrom k.GetLatestAttestationNonce with
  | none =>
    rw [hd] at hlt
    dsimp only at hlt
    simp only [Option.isSome_none, Bool.false_eq_true, if_false]
    rw [if_neg (by omega)]
  | some d =>
    rw [hd] at hlt he
    dsimp only at hlt he
    simp only [Option.isSome_some, if_true]
    rw [toInt64_of_lt _ he, wrapInt64_of_range _ (by omega) (by omega), if_neg (by omega)]

/-- One iteration of the loop when a whole window fits below the height, itself below
`2 ^ 63`: the next data commitment is appended and the loop goes on. -/
theorem dataCommitmentLoop_go (ctx : Ctx) (k : Keeper) (fuel : Nat)
    (hh : ctx.BlockHeight < 2 ^ 63)
    (hge : lastEndBlock k + k.dataCommitmentWindow ≤ ctx.BlockHeight) :
    dataCommitmentLoop ctx (k.dataCommitmentWindow : Int) (fuel + 1) k =
      dataCommitmentLoop ctx (k.dataCommitmentWindow : Int) fuel (withNextDataCommitment ctx k) := by
  conv => lhs; unfold dataCommitmentLoop
  unfold lastEndBlock at hge
  unfold Keeper.HasDataCommitmentInStore Keeper.GetLastDataCommitment
  cases hd : k.lastDataCommitmentFrom k.GetLatestAttestationNonce with
  | none =>
    rw [hd] at hge
    dsimp only at hge
    simp only [Option.isSome_none, Bool.false_eq_true, if_false]
    rw [if_pos (by omega), setDataCommitmentAttestation_eq]
  | some d =>
    rw [hd] at hge
    dsimp only at hge
    simp only [Option.isSome_some, if_true]
    rw [toInt64_of_lt _ (by omega), wrapInt64_of_range _ (by omega) (by omega),
      if_pos (by omega), setDataCommitmentAttestation_eq]

/-- With the window `2 ^ 63`, which `int64(·)` turns into `-2 ^ 63`, both conditions of the
loop hold in every state, so the loop appends a data commitment in every iteration and no
number of iterations lets it return. -/
theorem dataCommitmentLoop_min_window (ctx : Ctx) (fuel : Nat) :
    ∀ k : Keeper, dataCommitmentLoop ctx (-9223372036854775808) fuel k = .error .outOfFuel := by
  induction fuel with
  | zero => intro k; rfl
  | succ f ih =>
    intro k
    unfold dataCommitmentLoop
    unfold Keeper.HasDataCommitmentInStore Keeper.GetLastDataCommitment
    cases hd : k.lastDataCommitmentFrom k.GetLatestAttestationNonce with
    | none =>
      simp only [Option.isSome_none, Bool.false_eq_true, if_false]
      rw [if_pos (by omega), setDataCommitmentAttestation_eq]
      exact ih _
    | some d =>
      simp only [Option.isSome_some, if_true]
      rw [if_pos (wrapInt64_ge _), setDataCommitmentAttestation_eq]
      exact ih _

theorem catchUpCommitment_succ (ctx : Ctx) (n e W i : Nat) :
    catchUpCommitment ctx (n + 1) (e + W) W i = catchUpCommitment ctx n e W (i + 1) := by
  unfold catchUpCommitment
  congr 2 <;> ring

/-- The loop on a keeper that is `c` windows behind the height: with `c + 1` iterations or
more it returns, having appended exactly the `c` data commitments of the catch-up. -/
theorem dataCommitmentLoop_catchUp (ctx : Ctx) (W : Nat) (hW : 1 ≤ W)
    (hh : ctx.BlockHeight < 2 ^ 63) :
    ∀ (c : Nat) (k : Keeper) (fuel : Nat), k.dataCommitmentWindow = W →
      lastEndBlock k ≤ ctx.BlockHeight → (ctx.BlockHeight - lastEndBlock k) / W = c →
      c + 1 ≤ fuel →
      ∃ k' : Keeper, dataCommitmentLoop ctx (W : Int) fuel k = .ok k' ∧
        k'.requests = k.requests ++
          (List.range c).map (catchUpCommitment ctx k.GetLatestAttestationNonce (lastEndBlock k) W) ∧
        k'.GetLatestAttestationNonce = k.GetLatestAttestationNonce + c ∧
        lastEndBlock k' = lastEndBlock k + c * W := by
  intro c
  induction c with
  | zero =>
    intro k fuel hk hle hc hfuel
    obtain ⟨f, rfl⟩ : ∃ f, fuel = f + 1 := ⟨fuel - 1, by omega⟩
    have hlt : ctx.BlockHeight - lastEndBlock k < W := by
      rcases (Nat.div_eq_zero_iff (by omega : 0 < W)).mp hc with h
      exact h
    refine ⟨k, ?_, by simp, by simp, by simp⟩
    rw [← hk]
    exact dataCommitmentLoop_stop ctx k f hh (by omega) (by rw [hk]; omega)
  | succ c ih =>
    intro k fuel hk hle hc hfuel
    obtain ⟨f, rfl⟩ : ∃ f, fuel = f + 1 := ⟨fuel - 1, by omega⟩
    have hge : W ≤ ctx.BlockHeight - lastEndBlock k := by
      by_contra hlt
      rw [Nat.div_eq_of_lt (by omega)] at hc
      omega
    have hdiv : (ctx.BlockHeight - lastEndBlock k - W) / W = c := by
      have := Nat.div_eq_sub_div (by omega : 0 < W) hge
      omega
    obtain ⟨he, hn, hw, _, hr⟩ := withNextDataCommitment_facts ctx k
    rw [hk] at he hr
    obtain ⟨k', hrun, hreq, hlatest, hend⟩ := ih (withNextDataCommitment ctx k) f (hw.trans hk)
      (by rw [he]; omega) (by rw [he, ← hdiv]; congr 1; omega) (by omega)
    refine ⟨k', ?_, ?_, ?_, ?_⟩
    · rw [← hk, dataCommitmentLoop_go ctx k f hh (by rw [hk]; omega), hk]
      exact hrun
    · rw [hreq, hr, hn, he, List.range_succ_eq_map, List.map_cons, List.map_map,
        List.append_assoc, List.singleton_append]
      congr 2
      apply List.map_congr_left
      intro i _
      exact catchUpCommitment_succ ctx _ _ W i
    · rw [hlatest, hn]
      omega
    · rw [hend, he]
      ring

/-- The catch-up for the windows that `int64(·)` leaves as they are. For a window
`1 ≤ W < 2 ^ 63` and a height `h < 2 ^ 63` not below the last end block,
`handleDataCommitmentRequest` returns once it is granted enough iterations and has then
appended exactly `⌊(h - last_end) / W⌋` data commitments, which is `⌊h / W⌋` when none was
stored. The `i`-th of them covers the blocks from `last_end + i * W` to
`last_end + (i + 1) * W`, so the ranges are contiguous, of length `W` and increasing, and
afterwards the height is less than `W` past the last end block. -/
theorem handleDataCommitmentRequest_catchUp (ctx : Ctx) (k : Keeper) (fuel : Nat)
    (hW : 1 ≤ k.dataCommitmentWindow) (hW63 : k.dataCommitmentWindow < 2 ^ 63)
    (hh : ctx.BlockHeight < 2 ^ 63) (hle : lastEndBlock k ≤ ctx.BlockHeight)
    (hfuel : (ctx.BlockHeight - lastEndBlock k) / k.dataCommitmentWindow + 1 ≤ fuel) :
    (k.HasDataCommitmentInStore = false → lastEndBlock k = 0) ∧
    (∀ d : DataCommitment, k.GetLastDataCommitment = .ok d → lastEndBlock k = d.EndBlock) ∧
    ∃ k' : Keeper, handleDataCommitmentRequest fuel ctx k = .ok k' ∧
      k'.requests = k.requests ++
        (List.range ((ctx.BlockHeight - lastEndBlock k) / k.dataCommitmentWindow)).map
          (catchUpCommitment ctx k.GetLatestAttestationNonce (lastEndBlock k)
            k.dataCommitmentWindow) ∧
      k'.GetLatestAttestationNonce = k.GetLatestAttestationNonce +
        (ctx.BlockHeight - lastEndBlock k) / k.dataCommitmentWindow ∧
      lastEndBlock k' = lastEndBlock k +
        (ctx.BlockHeight - lastEndBlock k) / k.dataCommitmentWindow * k.dataCommitmentWindow ∧
      lastEndBlock k' ≤ ctx.BlockHeight ∧
      ctx.BlockHeight - lastEndBlock k' < k.dataCommitmentWindow := by
  refine ⟨?_, ?_, ?_⟩
  · intro hnone
    unfold Keeper.HasDataCommitmentInStore at hnone
    unfold lastEndBlock
    cases hd : k.lastDataCommitmentFrom k.GetLatestAttestationNonce with
    | none => rfl
    | some d => rw [hd] at hnone; cases hnone
  · intro d hd
    unfold Keeper.GetLastDataCommitment at hd
    unfold lastEndBlock
    cases hl : k.lastDataCommitmentFrom k.GetLatestAttestationNonce with
    | none => rw [hl] at hd; cases hd
    | some d' =>
      rw [hl] at hd
      injection hd with hd
      rw [hd]
  · obtain ⟨k', hrun, hreq, hlatest, hend⟩ :=
      dataCommitmentLoop_catchUp ctx k.dataCommitmentWindow hW hh _ k fuel rfl hle rfl hfuel
    have hrun' : handleDataCommitmentRequest fuel ctx k = .ok k' := by
      unfold handleDataCommitmentRequest Keeper.GetDataCommitmentWindowParam
      rw [toInt64_of_lt _ hW63]
      exact hrun
    have hmul : (ctx.BlockHeight - lastEndBlock k) / k.dataCommitmentWindow *
        k.dataCommitmentWindow ≤ ctx.BlockHeight - lastEndBlock k := Nat.div_mul_le_self _ _
    have hmod : ctx.BlockHeight - lastEndBlock k <
        ((ctx.BlockHeight - lastEndBlock k) / k.dataCommitmentWindow + 1) *
          k.dataCommitmentWindow := by
      have := Nat.lt_div_mul_add (a := ctx.BlockHeight - lastEndBlock k)
        (by omega : 0 < k.dataCommitmentWindow)
      rw [Nat.add_mul, Nat.one_mul]
      exact this
    rw [Nat.add_mul, Nat.one_mul] at hmod
    refine ⟨k', hrun', hreq, hlatest, hend, ?_, ?_⟩
    · rw [hend]; omega
    · rw [hend]; omega

/-- The catch-up at scenario S2: window 400, height 1300, a valset at nonce 1 and no data commitment
stored give exactly the three data commitments over `[0,400)`, `[400,800)`, `[800,1200)`, with
the nonces 2, 3, 4. -/
theorem handleDataCommitmentRequest_catchUp_witness :
    ∃ k' : Keeper,
      handleDataCommitmentRequest 4 { BlockHeight := 1300, BlockTime := 0 }
        (keeperWithFirstValset firstValset.Members 0) = .ok k' ∧
      k'.requests = [.valset firstValset,
        .dataCommitment { Nonce := 2, BeginBlock := 0, EndBlock := 400, Time := 0 },
        .dataCommitment { Nonce := 3, BeginBlock := 400, EndBlock := 800, Time := 0 },
        .dataCommitment { Nonce := 4, BeginBlock := 800, EndBlock := 1200, Time := 0 }] ∧
      lastEndBlock k' = 1200 := by
  obtain ⟨k', hrun, hreq, _, hend, _, _⟩ :=
    (handleDataCommitmentRequest_catchUp { BlockHeight := 1300, BlockTime := 0 }
      (keeperWithFirstValset firstValset.Members 0) 4 (by decide) (by decide) (by decide)
      (by decide) (by decide)).2.2
  refine ⟨k', hrun, ?_, ?_⟩
  · rw [hreq]
    decide
  · rw [hend]
    decide

/-! ## Pruning -/

theorem entryAt_key {k : Keeper} {n : Nat} {e : Entry} (h : k.entryAt n = some e) :
    e.key = n := by
  unfold Keeper.entryAt at h
  have := List.find?_some h
  simpa using this

theorem find_filter_key (n m : Nat) (es : List Entry) :
    (es.filter (fun e => e.key != n)).find? (fun e => e.key == m) =
      if m = n then none else es.find? (fun e => e.key == m) := by
  induction es with
  | nil => simp
  | cons e es ih =>
    by_cases hen : e.key = n
    · have hf : (e :: es).filter (fun e => e.key != n) = es.filter (fun e => e.key != n) := by
        simp [List.filter_cons, hen]
      rw [hf, ih]
      by_cases hmn : m = n
      · simp [hmn]
      · have hem : ¬ e.key = m := fun h => hmn (h.symm.trans hen)
        simp [hmn, List.find?_cons, hem]
    · have hf : (e :: es).filter (fun e => e.key != n) =
          e :: es.filter (fun e => e.key != n) := by
        simp [List.filter_cons, hen]
      rw [hf, List.find?_cons, List.find?_cons, ih]
      by_cases hem : e.key = m
      · have hmn : ¬ m = n := fun h => hen (hem.trans h)
        simp [hem, hmn]
      · have hb : (e.key == m) = false := by simp [hem]
        rw [hb]

theorem entryAt_delete (k : Keeper) (n m : Nat) :
    (k.DeleteAttestation n).entryAt m = if m = n then none else k.entryAt m :=
  find_filter_key n m k.entries

theorem pruneLoop_exit (ctx : Ctx) (latest fuel n : Nat) (k : Keeper) (h : ¬ n < latest) :
    pruneLoop ctx latest fuel n k = (k, some n) := by
  cases fuel with
  | zero => rfl
  | succ f =>
    unfold pruneLoop
    rw [if_neg h]

theorem pruneLoop_missing (ctx : Ctx) (latest fuel n : Nat) (k : Keeper) (h : n < latest)
    (he : k.entryAt n = none) : pruneLoop ctx latest (fuel + 1) n k = (k, none) := by
  unfold pruneLoop
  simp [h, Keeper.GetAttestationByNonce, he]

theorem pruneLoop_garbled (ctx : Ctx) (latest fuel n g : Nat) (k : Keeper) (h : n < latest)
    (he : k.entryAt n = some (.garbled g)) : pruneLoop ctx latest (fuel + 1) n k = (k, none) := by
  unfold pruneLoop
  simp [h, Keeper.GetAttestationByNonce, he]

theorem pruneLoop_valid (ctx : Ctx) (latest fuel n : Nat) (k : Keeper) (a : Attestation)
    (h : n < latest) (he : k.entryAt n = some (.decoded a))
    (hv : ctx.BlockTime < a.BlockTime + AttestationExpiryTime) :
    pruneLoop ctx latest (fuel + 1) n k = (k, some n) := by
  unfold pruneLoop
  simp [h, Keeper.GetAttestationByNonce, he, hv]

theorem pruneLoop_expired (ctx : Ctx) (latest fuel n : Nat) (k : Keeper) (a : Attestation)
    (h : n < latest) (he : k.entryAt n = some (.decoded a))
    (hv : ¬ ctx.BlockTime < a.BlockTime + AttestationExpiryTime) :
    pruneLoop ctx latest (fuel + 1) n k =
      pruneLoop ctx latest fuel (n + 1) (k.DeleteAttestation n) := by
  conv => lhs; unfold pruneLoop
  simp [h, Keeper.GetAttestationByNonce, he, hv]

/-- What the pruning loop does, started at the nonce `n` with enough iterations: it stops at
a nonce `stop`, has deleted exactly the nonces from `n` up to `stop`, each of which held an
expired attestation, and either ends there (at the latest nonce or at a still valid
attestation) or returns from inside the loop because the read at `stop` failed. -/
theorem pruneLoop_spec (ctx : Ctx) (latest : Nat) :
    ∀ (fuel n : Nat) (k : Keeper), latest - n ≤ fuel →
      ∃ stop : Nat, n ≤ stop ∧ (stop ≤ latest ∨ stop = n) ∧
        (∀ m, (pruneLoop ctx latest fuel n k).1.entryAt m =
          if n ≤ m ∧ m < stop then none else k.entryAt m) ∧
        (∀ m, n ≤ m → m < stop → ∃ a, k.entryAt m = some (.decoded a) ∧
          ¬ ctx.BlockTime < a.BlockTime + AttestationExpiryTime) ∧
        (((pruneLoop ctx latest fuel n k).2 = some stop ∧
            (stop < latest → ∃ a, k.entryAt stop = some (.decoded a) ∧
              ctx.BlockTime < a.BlockTime + AttestationExpiryTime)) ∨
          ((pruneLoop ctx latest fuel n k).2 = none ∧ stop < latest ∧
            (k.entryAt stop = none ∨ ∃ g, k.entryAt stop = some (.garbled g)))) := by
  intro fuel
  induction fuel with
  | zero =>
    intro n k hf
    have hn : ¬ n < latest := by omega
    refine ⟨n, le_refl _, Or.inr rfl, ?_, ?_, Or.inl ⟨?_, ?_⟩⟩
    · intro m
      rw [pruneLoop_exit ctx latest 0 n k hn, if_neg (by omega)]
    · intro m h1 h2
      omega
    · rw [pruneLoop_exit ctx latest 0 n k hn]
    · intro h
      omega
  | succ f ih =>
    intro n k hf
    by_cases hn : n < latest
    · cases he : k.entryAt n with
      | none =>
        refine ⟨n, le_refl _, Or.inl (by omega), ?_, ?_, Or.inr ⟨?_, hn, Or.inl he⟩⟩
        · intro m
          rw [pruneLoop_missing ctx latest f n k hn he, if_neg (by omega)]
        · intro m h1 h2
          omega
        · rw [pruneLoop_missing ctx latest f n k hn he]
      | some e =>
        cases e with
        | garbled g =>
          refine ⟨n, le_refl _, Or.inl (by omega), ?_, ?_, Or.inr ⟨?_, hn, Or.inr ⟨g, he⟩⟩⟩
          · intro m
            rw [pruneLoop_garbled ctx latest f n g k hn he, if_neg (by omega)]
          · intro m h1 h2
            omega
          · rw [pruneLoop_garbled ctx latest f n g k hn he]
        | decoded a =>
          by_cases hv : ctx.BlockTime < a.BlockTime + AttestationExpiryTime
          · refine ⟨n, le_refl _, Or.inl (by omega), ?_, ?_, Or.inl ⟨?_, fun _ => ⟨a, he, hv⟩⟩⟩
            · intro m
              rw [pruneLoop_valid ctx latest f n k a hn he hv, if_neg (by omega)]
            · intro m h1 h2
              omega
            · rw [pruneLoop_valid ctx latest f n k a hn he hv]
          · obtain ⟨stop, h1, h2, h3, h4, h5⟩ := ih (n + 1) (k.DeleteAttestation n) (by omega)
            have hstop : stop ≤ latest := by omega
            rw [pruneLoop_expired ctx latest f n k a hn he hv]
            refine ⟨stop, by omega, Or.inl hstop, ?_, ?_, ?_⟩
            · intro m
              rw [h3 m, entryAt_delete]
              by_cases hm : m = n
              · subst hm
                simp [show m < stop by omega]
              · by_cases hm2 : n + 1 ≤ m ∧ m < stop
                · rw [if_pos hm2, if_pos ⟨by omega, hm2.2⟩]
                · rw [if_neg hm2, if_neg hm, if_neg (by omega)]
            · intro m hm1 hm2
              by_cases hm : m = n
              · subst hm
                exact ⟨a, he, hv⟩
              · obtain ⟨a', ha', hv'⟩ := h4 m (by omega) hm2
                rw [entryAt_delete, if_neg hm] at ha'
                exact ⟨a', ha', hv'⟩
            · have hsn : ¬ stop = n := by omega
              rw [entryAt_delete, if_neg hsn] at h5
              exact h5
    · refine ⟨n, le_refl _, Or.inr rfl, ?_, ?_, Or.inl ⟨?_, ?_⟩⟩
      · intro m
        rw [pruneLoop_exit ctx latest (f + 1) n k hn, if_neg (by omega)]
      · intro m h1 h2
        omega
      · rw [pruneLoop_exit ctx latest (f + 1) n k hn]
      · intro h
        omega

theorem maybePrune_uninit (ctx : Ctx) (k : Keeper) (h : k.latestNonce = none) :
    maybePruneAttestations ctx k = k := by
  unfold maybePruneAttestations
  simp [Keeper.CheckLatestAttestationNonce, h]

theorem maybePrune_missing (ctx : Ctx) (k : Keeper)
    (h : k.entryAt k.earliestAvailableNonce = none) : maybePruneAttestations ctx k = k := by
  unfold maybePruneAttestations
  simp [Keeper.GetAttestationByNonce, Keeper.GetEarliestAvailableAttestationNonce, h]

theorem maybePrune_garbled (ctx : Ctx) (k : Keeper) (g : Nat)
    (h : k.entryAt k.earliestAvailableNonce = some (.garbled g)) :
    maybePruneAttestations ctx k = k := by
  unfold maybePruneAttestations
  simp [Keeper.GetAttestationByNonce, Keeper.GetEarliestAvailableAttestationNonce, h]

theorem maybePrune_valid (ctx : Ctx) (k : Keeper) (a : Attestation)
    (h : k.entryAt k.earliestAvailableNonce = some (.decoded a))
    (hv : ctx.BlockTime < a.BlockTime + AttestationExpiryTime) :
    maybePruneAttestations ctx k = k := by
  unfold maybePruneAttestations
  simp [Keeper.GetAttestationByNonce, Keeper.GetEarliestAvailableAttestationNonce, h, hv]

theorem maybePrune_run (ctx : Ctx) (k : Keeper) (l : Nat) (a : Attestation)
    (hl : k.latestNonce = some l)
    (h : k.entryAt k.earliestAvailableNonce = some (.decoded a))
    (hv : ¬ ctx.BlockTime < a.BlockTime + AttestationExpiryTime) :
    maybePruneAttestations ctx k =
      match pruneLoop ctx l (l - k.earliestAvailableNonce) k.earliestAvailableNonce k with
      | (k', none) => k'
      | (k', some n) => k'.SetEarliestAvailableAttestationNonce n := by
  have hkey : a.GetNonce = k.earliestAvailableNonce := entryAt_key h
  unfold maybePruneAttestations
  simp [Keeper.GetAttestationByNonce, Keeper.GetEarliestAvailableAttestationNonce, h, hv,
    Keeper.CheckLatestAttestationNonce, Keeper.GetLatestAttestationNonce, hl, hkey]

/-- What a pruning pass does. It deletes exactly the nonces from the earliest available one
up to a nonce `stop`, each of which held an expired attestation, and leaves the latest nonce
alone. Either it completes and persists `stop` as the earliest available nonce, or it
returns early and leaves that cursor as it was. -/
theorem maybePrune_spec (ctx : Ctx) (k : Keeper) :
    ∃ stop : Nat, k.earliestAvailableNonce ≤ stop ∧
      (stop ≤ k.GetLatestAttestationNonce ∨ stop = k.earliestAvailableNonce) ∧
      (∀ m, (maybePruneAttestations ctx k).entryAt m =
        if k.earliestAvailableNonce ≤ m ∧ m < stop then none else k.entryAt m) ∧
      (∀ m, k.earliestAvailableNonce ≤ m → m < stop → ∃ a, k.entryAt m = some (.decoded a) ∧
        ¬ ctx.BlockTime < a.BlockTime + AttestationExpiryTime) ∧
      (maybePruneAttestations ctx k).latestNonce = k.latestNonce ∧
      (((maybePruneAttestations ctx k).earliestAvailableNonce = stop ∧
          (stop < k.GetLatestAttestationNonce → ∃ a, k.entryAt stop = some (.decoded a) ∧
            ctx.BlockTime < a.BlockTime + AttestationExpiryTime)) ∨
        ((maybePruneAttestations ctx k).earliestAvailableNonce = k.earliestAvailableNonce ∧
          (stop = k.earliestAvailableNonce ∨ stop < k.GetLatestAttestationNonce) ∧
          (k.latestNonce = none ∨ k.entryAt stop = none ∨
            (∃ g, k.entryAt stop = some (.garbled g))))) := by
  have hskip : maybePruneAttestations ctx k = k →
      (k.latestNonce = none ∨ k.entryAt k.earliestAvailableNonce = none ∨
        (∃ g, k.entryAt k.earliestAvailableNonce = some (.garbled g)) ∨
        (∃ a, k.entryAt k.earliestAvailableNonce = some (.decoded a) ∧
          ctx.BlockTime < a.BlockTime + AttestationExpiryTime)) →
      ∃ stop : Nat, k.earliestAvailableNonce ≤ stop ∧
      (stop ≤ k.GetLatestAttestationNonce ∨ stop = k.earliestAvailableNonce) ∧
      (∀ m, (maybePruneAttestations ctx k).entryAt m =
        if k.earliestAvailableNonce ≤ m ∧ m < stop then none else k.entryAt m) ∧
      (∀ m, k.earliestAvailableNonce ≤ m → m < stop → ∃ a, k.entryAt m = some (.decoded a) ∧
        ¬ ctx.BlockTime < a.BlockTime + AttestationExpiryTime) ∧
      (maybePruneAttestations ctx k).latestNonce = k.latestNonce ∧
      (((maybePruneAttestations ctx k).earliestAvailableNonce = stop ∧
          (stop < k.GetLatestAttestationNonce → ∃ a, k.entryAt stop = some (.decoded a) ∧
            ctx.BlockTime < a.BlockTime + AttestationExpiryTime)) ∨
        ((maybePruneAttestations ctx k).earliestAvailableNonce = k.earliestAvailableNonce ∧
          (stop = k.earliestAvailableNonce ∨ stop < k.GetLatestAttestationNonce) ∧
          (k.latestNonce = none ∨ k.entryAt stop = none ∨
            (∃ g, k.entryAt stop = some (.garbled g))))) := by
    intro hk hwhy
    rw [hk]
    refine ⟨k.earliestAvailableNonce, le_refl _, Or.inr rfl, ?_, ?_, rfl, ?_⟩
    · intro m
      rw [if_neg (by omega)]
    · intro m h1 h2
      omega
    · rcases hwhy with h | h | h | ⟨a, ha, hv⟩
      · exact Or.inr ⟨rfl, Or.inl rfl, Or.inl h⟩
      · exact Or.inr ⟨rfl, Or.inl rfl, Or.inr (Or.inl h)⟩
      · exact Or.inr ⟨rfl, Or.inl rfl, Or.inr (Or.inr h)⟩
      · exact Or.inl ⟨rfl, fun _ => ⟨a, ha, hv⟩⟩
  have hlc : k.latestNonce = none ∨ ∃ l, k.latestNonce = some l := by
    cases k.latestNonce with
    | none => exact Or.inl rfl
    | some l => exact Or.inr ⟨l, rfl⟩
  have hec : k.entryAt k.earliestAvailableNonce = none ∨
      (∃ g, k.entryAt k.earliestAvailableNonce = some (.garbled g)) ∨
      ∃ a, k.entryAt k.earliestAvailableNonce = some (.decoded a) := by
    cases k.entryAt k.earliestAvailableNonce with
    | none => exact Or.inl rfl
    | some e =>
      cases e with
      | garbled g => exact Or.inr (Or.inl ⟨g, rfl⟩)
      | decoded a => exact Or.inr (Or.inr ⟨a, rfl⟩)
  rcases hlc with hl | ⟨l, hl⟩
  · exact hskip (maybePrune_uninit ctx k hl) (Or.inl hl)
  rcases hec with he | ⟨g, he⟩ | ⟨a, he⟩
  · exact hskip (maybePrune_missing ctx k he) (Or.inr (Or.inl he))
  · exact hskip (maybePrune_garbled ctx k g he) (Or.inr (Or.inr (Or.inl ⟨g, he⟩)))
  by_cases hv : ctx.BlockTime < a.BlockTime + AttestationExpiryTime
  · exact hskip (maybePrune_valid ctx k a he hv) (Or.inr (Or.inr (Or.inr ⟨a, he, hv⟩)))
  have hlat : k.GetLatestAttestationNonce = l := by
    simp [Keeper.GetLatestAttestationNonce, hl]
  obtain ⟨stop, h1, h2, h3, h4, h5⟩ := pruneLoop_spec ctx l
    (l - k.earliestAvailableNonce) k.earliestAvailableNonce k (le_refl _)
  have hframe := pruneLoop_frame ctx l (l - k.earliestAvailableNonce)
    k.earliestAvailableNonce k
  rw [maybePrune_run ctx k l a hl he hv, hlat]
  cases hp : pruneLoop ctx l (l - k.earliestAvailableNonce) k.earliestAvailableNonce k with
  | mk k' r =>
    rw [hp] at h3 h5 hframe
    cases r with
    | none =>
      rcases h5 with ⟨h5, _⟩ | ⟨_, h5, h6⟩
      · cases h5
      · exact ⟨stop, h1, h2, h3, h4, hframe.1, Or.inr ⟨hframe.2.2, Or.inr h5, Or.inr h6⟩⟩
    | some n =>
      rcases h5 with ⟨h5, h6⟩ | ⟨h5, _⟩
      · injection h5 with h5
        subst h5
        exact ⟨n, h1, h2, h3, h4, hframe.1, Or.inl ⟨rfl, h6⟩⟩
      · cases h5

/-! ## What pruning deletes and what it keeps -/

theorem read_of_entry_eq {k k' : Keeper} {n : Nat} (h : k'.entryAt n = k.entryAt n) :
    k'.GetAttestationByNonce n = k.GetAttestationByNonce n := by
  unfold Keeper.GetAttestationByNonce
  rw [h]

theorem read_decoded {k : Keeper} {n : Nat} {a : Attestation}
    (h : k.entryAt n = some (.decoded a)) :
    k.GetAttestationByNonce n = { att := some a, found := true, err := none } := by
  unfold Keeper.GetAttestationByNonce
  rw [h]

theorem read_none {k : Keeper} {n : Nat} (h : k.entryAt n = none) :
    k.GetAttestationByNonce n = { att := none, found := false, err := none } := by
  unfold Keeper.GetAttestationByNonce
  rw [h]

theorem entry_of_read {k : Keeper} {n : Nat} {a : Attestation}
    (h : k.GetAttestationByNonce n = { att := some a, found := true, err := none }) :
    k.entryAt n = some (.decoded a) := by
  unfold Keeper.GetAttestationByNonce at h
  split at h
  · cases h
  · cases h
  · rename_i b hb
    injection h with h1 _ _
    injection h1 with h1
    rw [hb, h1]

/-- C5. Whatever the store and the block time, and whether the pass completes or returns
early, `maybePruneAttestations` deletes no attestation that is still valid: at every nonce the
read is unchanged, or the nonce held an attestation with `block_time + T ≤ now` that is gone
afterwards. -/
theorem prune_deletes_only_expired (ctx : Ctx) (k : Keeper) (n : Nat) :
    (maybePruneAttestations ctx k).GetAttestationByNonce n = k.GetAttestationByNonce n ∨
    ∃ a : Attestation,
      k.GetAttestationByNonce n = { att := some a, found := true, err := none } ∧
      a.BlockTime + AttestationExpiryTime ≤ ctx.BlockTime ∧
      (maybePruneAttestations ctx k).GetAttestationByNonce n =
        { att := none, found := false, err := none } := by
  obtain ⟨stop, _, _, h3, h4, _, _⟩ := maybePrune_spec ctx k
  by_cases hn : k.earliestAvailableNonce ≤ n ∧ n < stop
  · obtain ⟨a, ha, hv⟩ := h4 n hn.1 hn.2
    refine Or.inr ⟨a, read_decoded ha, not_lt.mp hv, read_none ?_⟩
    rw [h3 n, if_pos hn]
  · refine Or.inl (read_of_entry_eq ?_)
    rw [h3 n, if_neg hn]

/-- C7. When the earliest available nonce is not above the latest nonce, a pruning pass
leaves the read at the latest nonce as it was, so an attestation stored there remains stored
however old it is, and the earliest available nonce it leaves is not above the latest nonce,
which itself does not move. -/
theorem prune_keeps_latest (ctx : Ctx) (k : Keeper)
    (h : k.earliestAvailableNonce ≤ k.GetLatestAttestationNonce) :
    (maybePruneAttestations ctx k).GetAttestationByNonce k.GetLatestAttestationNonce =
      k.GetAttestationByNonce k.GetLatestAttestationNonce ∧
    (maybePruneAttestations ctx k).earliestAvailableNonce ≤ k.GetLatestAttestationNonce ∧
    (maybePruneAttestations ctx k).GetLatestAttestationNonce = k.GetLatestAttestationNonce ∧
    ((k.GetAttestationByNonce k.GetLatestAttestationNonce).found = true →
      ((maybePruneAttestations ctx k).GetAttestationByNonce
        k.GetLatestAttestationNonce).found = true) := by
  obtain ⟨stop, h1, h2, h3, _, h5, h6⟩ := maybePrune_spec ctx k
  have hstop : stop ≤ k.GetLatestAttestationNonce := by
    rcases h2 with h2 | h2
    · exact h2
    · rw [h2]; exact h
  have hread : (maybePruneAttestations ctx k).GetAttestationByNonce k.GetLatestAttestationNonce =
      k.GetAttestationByNonce k.GetLatestAttestationNonce := by
    apply read_of_entry_eq
    rw [h3, if_neg (by omega)]
  refine ⟨hread, ?_, ?_, ?_⟩
  · rcases h6 with ⟨h6, _⟩ | ⟨h6, _⟩
    · rw [h6]; exact hstop
    · rw [h6]; exact h
  · unfold Keeper.GetLatestAttestationNonce
    rw [h5]
  · intro hf
    rw [hread]
    exact hf

/-- C7 at a log with a single attestation that is nine weeks old: it is still stored after
the pass and the earliest available nonce stays at the latest nonce. -/
theorem prune_keeps_latest_witness :
    singleAttestationKeeper.earliestAvailableNonce ≤
      singleAttestationKeeper.GetLatestAttestationNonce ∧
    (maybePruneAttestations nineWeeksCtx singleAttestationKeeper).GetAttestationByNonce 1 =
      { att := some (valsetAt 1 0), found := true, err := none } ∧
    (maybePruneAttestations nineWeeksCtx singleAttestationKeeper).earliestAvailableNonce ≤ 1 :=
  ⟨by decide,
   (prune_keeps_latest nineWeeksCtx singleAttestationKeeper (by decide)).1,
   (prune_keeps_latest nineWeeksCtx singleAttestationKeeper (by decide)).2.1⟩

/-- C6. A pass that finds the earliest attestation and meets no failed read (every nonce
below the latest one that is preceded by expired attestations only can be read), on a log whose
earliest available nonce is not above the latest nonce, deletes exactly the nonces from the
old earliest available nonce up to the new one, all of them expired, and the new one is the
smallest nonce from the old one on and below the latest nonce whose attestation is still
valid, or the latest nonce when there is none. This holds in particular when the earliest
attestation is expired, the case in which the pass deletes at all. -/
theorem prune_advances_to_first_valid (ctx : Ctx) (k : Keeper) (l : Nat) (a0 : Attestation)
    (hl : k.latestNonce = some l) (hle : k.earliestAvailableNonce ≤ l)
    (he : k.GetAttestationByNonce k.earliestAvailableNonce =
      { att := some a0, found := true, err := none })
    (hread : ∀ m, k.earliestAvailableNonce ≤ m → m < l →
      (∀ j, k.earliestAvailableNonce ≤ j → j < m →
        ∃ a, k.GetAttestationByNonce j = { att := some a, found := true, err := none } ∧
          a.BlockTime + AttestationExpiryTime ≤ ctx.BlockTime) →
      ∃ a, k.GetAttestationByNonce m = { att := some a, found := true, err := none }) :
    k.earliestAvailableNonce ≤ (maybePruneAttestations ctx k).earliestAvailableNonce ∧
    (maybePruneAttestations ctx k).earliestAvailableNonce ≤ l ∧
    (∀ m, (maybePruneAttestations ctx k).GetAttestationByNonce m =
      if k.earliestAvailableNonce ≤ m ∧ m < (maybePruneAttestations ctx k).earliestAvailableNonce
      then { att := none, found := false, err := none } else k.GetAttestationByNonce m) ∧
    (∀ m, k.earliestAvailableNonce ≤ m →
      m < (maybePruneAttestations ctx k).earliestAvailableNonce →
      ∃ a, k.GetAttestationByNonce m = { att := some a, found := true, err := none } ∧
        a.BlockTime + AttestationExpiryTime ≤ ctx.BlockTime) ∧
    ((maybePruneAttestations ctx k).earliestAvailableNonce < l →
      ∃ a, k.GetAttestationByNonce (maybePruneAttestations ctx k).earliestAvailableNonce =
          { att := some a, found := true, err := none } ∧
        ctx.BlockTime < a.BlockTime + AttestationExpiryTime) ∧
    (∀ m a, k.earliestAvailableNonce ≤ m → m < l →
      k.GetAttestationByNonce m = { att := some a, found := true, err := none } →
      ctx.BlockTime < a.BlockTime + AttestationExpiryTime →
      (maybePruneAttestations ctx k).earliestAvailableNonce ≤ m) := by
  have hlat : k.GetLatestAttestationNonce = l := by
    simp [Keeper.GetLatestAttestationNonce, hl]
  obtain ⟨stop, h1, h2, h3, h4, _, h6⟩ := maybePrune_spec ctx k
  rw [hlat] at h2 h6
  have hstop : stop ≤ l := by
    rcases h2 with h2 | h2
    · exact h2
    · rw [h2]; exact hle
  have hdone : (maybePruneAttestations ctx k).earliestAvailableNonce = stop ∧
      (stop < l → ∃ a, k.entryAt stop = some (.decoded a) ∧
        ctx.BlockTime < a.BlockTime + AttestationExpiryTime) := by
    rcases h6 with h6 | ⟨_, hwhere, hwhy⟩
    · exact h6
    · exfalso
      have hent : ∃ a, k.entryAt stop = some (.decoded a) := by
        rcases hwhere with hw | hw
        · rw [hw]; exact ⟨a0, entry_of_read he⟩
        · obtain ⟨a, ha⟩ := hread stop h1 hw (fun j hj1 hj2 => by
            obtain ⟨b, hb, hvb⟩ := h4 j hj1 hj2
            exact ⟨b, read_decoded hb, not_lt.mp hvb⟩)
          exact ⟨a, entry_of_read ha⟩
      obtain ⟨a, ha⟩ := hent
      rcases hwhy with hw | hw | ⟨g, hw⟩
      · rw [hl] at hw; cases hw
      · rw [ha] at hw; cases hw
      · rw [ha] at hw; cases hw
  obtain ⟨hnew, hvalid⟩ := hdone
  rw [hnew]
  refine ⟨h1, hstop, ?_, ?_, ?_, ?_⟩
  · intro m
    by_cases hm : k.earliestAvailableNonce ≤ m ∧ m < stop
    · rw [if_pos hm]
      apply read_none
      rw [h3 m, if_pos hm]
    · rw [if_neg hm]
      apply read_of_entry_eq
      rw [h3 m, if_neg hm]
  · intro m hm1 hm2
    obtain ⟨a, ha, hv⟩ := h4 m hm1 hm2
    exact ⟨a, read_decoded ha, not_lt.mp hv⟩
  · intro hlt
    obtain ⟨a, ha, hv⟩ := hvalid hlt
    exact ⟨a, read_decoded ha, hv⟩
  · intro m a hm1 _ ha hv
    by_contra hlt
    obtain ⟨a', ha', hv'⟩ := h4 m hm1 (by omega)
    rw [entry_of_read ha] at ha'
    injection ha' with ha'
    injection ha' with ha'
    subst ha'
    exact hv' hv

/-- C6 at scenario S4: the earliest attestation is nine weeks old and the next one seven
weeks old, so exactly nonce 1 is deleted and the earliest available nonce moves from 1 to 2. -/
theorem prune_advances_to_first_valid_witness :
    (maybePruneAttestations nineWeeksCtx threeAttestationKeeper).earliestAvailableNonce = 2 ∧
    (maybePruneAttestations nineWeeksCtx threeAttestationKeeper).entries =
      [.decoded (valsetAt 3 (3 * Week)), .decoded (valsetAt 2 (2 * Week))] ∧
    (maybePruneAttestations nineWeeksCtx threeAttestationKeeper).GetAttestationByNonce 1 =
      { att := none, found := false, err := none } ∧
    (maybePruneAttestations nineWeeksCtx threeAttestationKeeper).GetAttestationByNonce 2 =
      threeAttestationKeeper.GetAttestationByNonce 2 := by
  have hreads := (prune_advances_to_first_valid nineWeeksCtx threeAttestationKeeper 3
    (valsetAt 1 0) rfl (by decide) (by decide)
    (fun m h1 h2 _ => by
      have hm : m = 1 ∨ m = 2 := by
        have h1' : 1 ≤ m := h1
        omega
      rcases hm with rfl | rfl
      · exact ⟨valsetAt 1 0, by decide⟩
      · exact ⟨valsetAt 2 (2 * Week), by decide⟩)).2.2.1
  have hnew : (maybePruneAttestations nineWeeksCtx threeAttestationKeeper).earliestAvailableNonce
      = 2 := by decide
  have h1 := hreads 1
  have h2 := hreads 2
  rw [hnew, if_pos (by decide)] at h1
  rw [hnew, if_neg (by decide)] at h2
  exact ⟨hnew, by decide, h1, h2⟩

/-- C4, the failing input. The docstring of `maybePruneAttestations` (abci.go lines 126-127)
has the pass delete expired attestations "until all attestations in state are still valid",
while its loop (line 158) stops below the latest nonce. On a log that holds a single
attestation, nine weeks old, at the nonce that is both the earliest available and the latest
one (consecutive nonces, block times trivially non-decreasing, no read error), the pass deletes
nothing, and the attestation that remains stored has `block_time + T ≤ now`. -/
theorem prune_leaves_expired_latest :
    singleAttestationKeeper.entries = [.decoded (valsetAt 1 0)] ∧
    singleAttestationKeeper.earliestAvailableNonce = 1 ∧
    singleAttestationKeeper.latestNonce = some 1 ∧
    (maybePruneAttestations nineWeeksCtx singleAttestationKeeper).GetAttestationByNonce 1 =
      { att := some (valsetAt 1 0), found := true, err := none } ∧
    ¬ ((valsetAt 1 0).BlockTime + AttestationExpiryTime > nineWeeksCtx.BlockTime) := by
  decide

/-- What the pass does achieve below the latest nonce. On a log that holds attestations at the
consecutive nonces from the earliest available one to the latest one, with block times that do
not decrease with the nonce, every attestation that remains stored after the pass at a nonce
from the earliest available one up to, but not including, the latest one satisfies
`block_time + T > now`. -/
theorem prune_leaves_valid_below_latest (ctx : Ctx) (k : Keeper) (l : Nat)
    (hl : k.latestNonce = some l)
    (hstored : ∀ m, k.earliestAvailableNonce ≤ m → m ≤ l →
      ∃ a, k.GetAttestationByNonce m = { att := some a, found := true, err := none })
    (hmono : ∀ m m' a a', m ≤ m' →
      k.GetAttestationByNonce m = { att := some a, found := true, err := none } →
      k.GetAttestationByNonce m' = { att := some a', found := true, err := none } →
      a.BlockTime ≤ a'.BlockTime) :
    ∀ m a, (maybePruneAttestations ctx k).GetAttestationByNonce m =
        { att := some a, found := true, err := none } →
      k.earliestAvailableNonce ≤ m → m < l →
      a.BlockTime + AttestationExpiryTime > ctx.BlockTime := by
  intro m a hm hm1 hmlt
  have hlat : k.GetLatestAttestationNonce = l := by
    simp [Keeper.GetLatestAttestationNonce, hl]
  obtain ⟨stop, h1, _, h3, _, _, h6⟩ := maybePrune_spec ctx k
  rw [hlat] at h6
  have hent := entry_of_read hm
  rw [h3 m] at hent
  by_cases hin : k.earliestAvailableNonce ≤ m ∧ m < stop
  · rw [if_pos hin] at hent
    cases hent
  · rw [if_neg hin] at hent
    have hkm := read_decoded hent
    have hsm : stop ≤ m := by omega
    obtain ⟨as, has⟩ := hstored stop h1 (by omega)
    have hmon := hmono stop m as a hsm has hkm
    rcases h6 with ⟨_, hvalid⟩ | ⟨_, _, hwhy⟩
    · obtain ⟨a', ha', hv'⟩ := hvalid (by omega)
      rw [entry_of_read has] at ha'
      injection ha' with ha'
      injection ha' with ha'
      subst ha'
      show ctx.BlockTime < a.BlockTime + AttestationExpiryTime
      omega
    · exfalso
      rcases hwhy with hw | hw | ⟨g, hw⟩
      · rw [hl] at hw; cases hw
      · rw [entry_of_read has] at hw; cases hw
      · rw [entry_of_read has] at hw; cases hw

/-- The log with the nonces 1, 2, 3 created at weeks 0, 2 and 3, pruned at week 9: the
attestation that remains at nonce 2, below the latest one, is seven weeks old. -/
theorem prune_leaves_valid_below_latest_witness :
    (maybePruneAttestations nineWeeksCtx threeAttestationKeeper).GetAttestationByNonce 2 =
      { att := some (valsetAt 2 (2 * Week)), found := true, err := none } ∧
    (valsetAt 2 (2 * Week)).BlockTime + AttestationExpiryTime > nineWeeksCtx.BlockTime :=
  have hread : (maybePruneAttestations nineWeeksCtx threeAttestationKeeper).GetAttestationByNonce 2 =
      { att := some (valsetAt 2 (2 * Week)), found := true, err := none } := by decide
  have hstored : ∀ m, 1 ≤ m → m ≤ 3 → threeAttestationKeeper.entryAt m =
      some (.decoded (valsetAt m ((if m = 1 then 0 else (m : Int)) * Week))) := by
    intro m h1 h3
    have hm : m = 1 ∨ m = 2 ∨ m = 3 := by omega
    rcases hm with rfl | rfl | rfl <;> decide
  have honly : ∀ m a, threeAttestationKeeper.GetAttestationByNonce m =
      { att := some a, found := true, err := none } → 1 ≤ m ∧ m ≤ 3 := by
    intro m a h
    have hkey := entryAt_key (entry_of_read h)
    have hmem := List.mem_of_find?_eq_some (entry_of_read h)
    have hcases : Entry.decoded a = .decoded (valsetAt 3 (3 * Week)) ∨
        Entry.decoded a = .decoded (valsetAt 2 (2 * Week)) ∨
        Entry.decoded a = .decoded (valsetAt 1 0) := by
      simpa [threeAttestationKeeper] using hmem
    rcases hcases with hc | hc | hc <;> rw [hc] at hkey <;> rw [← hkey] <;> decide
  ⟨hread,
   prune_leaves_valid_below_latest nineWeeksCtx threeAttestationKeeper 3 rfl
     (fun m h1 h3 => ⟨_, read_decoded (hstored m h1 h3)⟩)
     (fun m m' a a' hmm ha ha' => by
        obtain ⟨h1, h3⟩ := honly m a ha
        obtain ⟨h1', h3'⟩ := honly m' a' ha'
        have e := entry_of_read ha
        have e' := entry_of_read ha'
        rw [hstored m h1 h3] at e
        rw [hstored m' h1' h3'] at e'
        injection e with e
        injection e with e
        injection e' with e'
        injection e' with e'
        subst e
        subst e'
        have hm : m = 1 ∨ m = 2 ∨ m = 3 := by omega
        have hm' : m' = 1 ∨ m' = 2 ∨ m' = 3 := by omega
        rcases hm with rfl | rfl | rfl <;> rcases hm' with rfl | rfl | rfl <;>
          first | decide | omega)
     2 _ hread (by decide) (by decide)⟩

/-! ## An empty bonded set -/

/-- With an empty bonded set and a latest valset at hand, `handleValsetRequest` returns and
leaves the keeper as it was. -/
theorem handleValsetRequest_empty_with_valset (ctx : Ctx) (k : Keeper) (lv : Valset)
    (hb : k.bonded = []) (hno : ¬ noAttestationYet k) (hlv : k.GetLatestValset = .ok lv) :
    handleValsetRequest ctx k = .ok k := by
  have hcond : (k.CheckLatestAttestationNonce && k.GetLatestAttestationNonce != 0) = true := by
    unfold noAttestationYet at hno
    have hlc : k.latestNonce = none ∨ ∃ n, k.latestNonce = some n := by
      cases k.latestNonce with
      | none => exact Or.inl rfl
      | some n => exact Or.inr ⟨n, rfl⟩
    rcases hlc with hl | ⟨n, hl⟩
    · exact absurd (Or.inl hl) hno
    · have : n ≠ 0 := fun h0 => hno (Or.inr (by rw [hl, h0]))
      simp [Keeper.CheckLatestAttestationNonce, Keeper.GetLatestAttestationNonce, hl, this]
  unfold handleValsetRequest
  simp only [hcond, hlv, if_true]
  rw [getCurrentValset_empty ctx k hb]
  simp

/-- With an empty bonded set and no attestation stored yet, `handleValsetRequest` panics
with `ErrNoValidators`. -/
theorem handleValsetRequest_empty_without_valset (ctx : Ctx) (k : Keeper)
    (hb : k.bonded = []) (hno : noAttestationYet k) :
    handleValsetRequest ctx k = .error (.panic ErrNoValidators) := by
  have hcond : (k.CheckLatestAttestationNonce && k.GetLatestAttestationNonce != 0) = false := by
    rcases hno with h | h <;>
      simp [Keeper.CheckLatestAttestationNonce, Keeper.GetLatestAttestationNonce, h]
  unfold handleValsetRequest
  simp only [hcond, Bool.false_eq_true, if_false]
  unfold putValsetRequest
  rw [getCurrentValset_empty ctx k hb]
  simp

/-- C8, the failing input. With an empty bonded set, `handleValsetRequest` returns and stores
nothing when a valset is stored, but panics with `ErrNoValidators` on the empty store, where
the claim has it return. -/
theorem handleValsetRequest_panics_on_empty_store :
    emptyKeeper.bonded = [] ∧
    handleValsetRequest { BlockHeight := 100, BlockTime := 0 } emptyKeeper =
      .error (.panic ErrNoValidators) ∧
    handleValsetRequest { BlockHeight := 100, BlockTime := 0 } (keeperWithFirstValset [] 0) =
      .ok (keeperWithFirstValset [] 0) :=
  ⟨rfl, rfl, rfl⟩

/-! ## The backfill of missing nonces -/

theorem enqueueMissingLoop_never (latestNonce : Nat) :
    ∀ (fuel i : Nat) (queue : List Nat), i + fuel = latestNonce + 1 →
      enqueueMissingLoop latestNonce neverCancelled fuel i queue =
        queue ++ (List.range fuel).reverse := by
  intro fuel
  induction fuel with
  | zero => intro i queue _; simp [enqueueMissingLoop]
  | succ f ih =>
    intro i queue hi
    unfold enqueueMissingLoop
    rw [if_pos (by omega)]
    have hc : neverCancelled i = false := rfl
    simp only [hc, Bool.false_eq_true, if_false]
    have := ih (i + 1) (queue ++ [latestNonce - i]) (by omega)
    rw [this, List.range_succ, List.reverse_append, List.append_assoc]
    have hf : latestNonce - i = f := by omega
    simp [hf]

/-- What `EnqueueMissingEvents` pushes without cancellation, for `u ≤ l`: the nonces
`l - u, l - u - 1, …, 0`, in this order. -/
theorem enqueueMissingEvents_pushes (u l : Nat) (queue : List Nat) (h : u ≤ l) :
    EnqueueMissingEvents (.ok u) l neverCancelled queue =
      .ok (queue ++ (List.range (l - u + 1)).reverse) := by
  unfold EnqueueMissingEvents
  simp only
  rw [enqueueMissingLoop_never l (l + 1 - u) u queue (by omega)]
  have : l + 1 - u = l - u + 1 := by omega
  rw [this]

/-- C9, the failing input. With the last unbonding nonce 2 and the latest nonce 5 the
function pushes `3, 2, 1, 0`, where the claim has it push `5, 4, 3, 2`. -/
theorem enqueueMissingEvents_at_2_5 :
    EnqueueMissingEvents (.ok 2) 5 neverCancelled [] = .ok [3, 2, 1, 0] ∧
    EnqueueMissingEvents (.ok 2) 5 neverCancelled [] ≠ .ok [5, 4, 3, 2] := by
  have h : EnqueueMissingEvents (.ok 2) 5 neverCancelled [] = .ok [3, 2, 1, 0] := rfl
  refine ⟨h, ?_⟩
  rw [h]
  intro hne
  injection hne with hne
  exact absurd hne (by decide)

/-! ## The listener -/

theorem listenerEnqueueLoop_never (lastNonce : Nat) :
    ∀ (fuel n : Nat) (queue : List Nat), n + fuel = lastNonce + 1 →
      listenerEnqueueLoop lastNonce neverCancelled fuel n queue =
        (queue ++ List.range' n fuel, false) := by
  intro fuel
  induction fuel with
  | zero => intro n queue _; simp [listenerEnqueueLoop]
  | succ f ih =>
    intro n queue hn
    unfold listenerEnqueueLoop
    rw [if_pos (by omega)]
    have hc : neverCancelled n = false := rfl
    simp only [hc, Bool.false_eq_true, if_false]
    have := ih (n + 1) (queue ++ [n]) (by omega)
    rw [this, List.range'_succ, List.append_assoc, List.singleton_append]

/-- C10. On a tick without cancellation that polls a latest nonce above the cursor, exactly
the nonces from the cursor to the latest nonce are pushed, in ascending order and once each,
and the cursor becomes the latest nonce; when the polled nonce equals the cursor, nothing is
pushed and the cursor stays. -/
theorem listener_tick (current latest : Nat) (queue : List Nat) :
    (current < latest →
      listenerStep { currentNonce := current, queue := queue, returned := none }
          (.tick (.ok latest) neverCancelled) =
        { currentNonce := latest, queue := queue ++ List.range' current (latest - current + 1),
          returned := none }) ∧
    listenerStep { currentNonce := current, queue := queue, returned := none }
        (.tick (.ok current) neverCancelled) =
      { currentNonce := current, queue := queue, returned := none } := by
  constructor
  · intro h
    unfold listenerStep
    have hne : (current == latest) = false := by
      simp only [beq_eq_false_iff_ne, ne_eq]
      omega
    simp only [hne, Bool.false_eq_true, if_false]
    rw [listenerEnqueueLoop_never latest (latest + 1 - current) current queue (by omega)]
    have : latest + 1 - current = latest - current + 1 := by omega
    rw [this]
  · unfold listenerStep
    simp

/-- C10 at scenario S5: the cursor is 10 and the poll returns 15, so the nonces 10 to 15 are
pushed in order and the cursor becomes 15. -/
theorem listener_tick_witness :
    (10 : Nat) < 15 ∧
    listenerStep { currentNonce := 10, queue := [], returned := none }
        (.tick (.ok 15) neverCancelled) =
      { currentNonce := 15, queue := [10, 11, 12, 13, 14, 15], returned := none } :=
  ⟨by decide, (listener_tick 10 15 []).1 (by decide)⟩

/-! ## Termination of the catch-up -/

/-- More iterations do not change what the data commitment loop returns. -/
theorem dataCommitmentLoop_mono (ctx : Ctx) (W : Int) (fuel : Nat) :
    ∀ k k' : Keeper, dataCommitmentLoop ctx W fuel k = .ok k' →
      dataCommitmentLoop ctx W (fuel + 1) k = .ok k' := by
  induction fuel with
  | zero =>
    intro k k' h
    simp [dataCommitmentLoop] at h
  | succ f ih =>
    intro k k' h
    unfold dataCommitmentLoop at h
    unfold dataCommitmentLoop
    split
    · rename_i hhas
      rw [if_pos hhas] at h
      split
      · rename_i err herr
        rw [herr] at h
        cases h
      · rename_i d hd
        rw [hd] at h
        simp only at h
        split
        · rename_i hge
          rw [if_pos hge] at h
          split
          · rename_i e he
            rw [he] at h
            cases h
          · rename_i k1 hk1
            rw [hk1] at h
            exact ih _ _ h
        · rename_i hlt
          rw [if_neg hlt] at h
          exact h
    · rename_i hhas
      rw [if_neg hhas] at h
      split
      · rename_i hge
        rw [if_pos hge] at h
        split
        · rename_i e he
          rw [he] at h
          cases h
        · rename_i k1 hk1
          rw [hk1] at h
          exact ih _ _ h
      · rename_i hlt
        rw [if_neg hlt] at h
        exact h

theorem dataCommitmentLoop_mono_le (ctx : Ctx) (W : Int) (k k' : Keeper) (fuel fuel' : Nat)
    (hle : fuel ≤ fuel') (h : dataCommitmentLoop ctx W fuel k = .ok k') :
    dataCommitmentLoop ctx W fuel' k = .ok k' := by
  induction hle with
  | refl => exact h
  | step _ ih => exact dataCommitmentLoop_mono ctx W _ k k' ih

/-- Termination for the windows that `int64(·)` leaves as they are. For a window
`1 ≤ W < 2 ^ 63`, a height `h < 2 ^ 63` and a keeper whose last end block is below `2 ^ 63`,
the loop of `handleDataCommitmentRequest` returns within `⌊h / W⌋ + 1` iterations: granted
that many iterations or more, it returns one and the same keeper. -/
theorem handleDataCommitmentRequest_terminates (ctx : Ctx) (k : Keeper)
    (hW : 1 ≤ k.dataCommitmentWindow) (hW63 : k.dataCommitmentWindow < 2 ^ 63)
    (hh : ctx.BlockHeight < 2 ^ 63) (he : lastEndBlock k < 2 ^ 63) :
    ∃ k' : Keeper, ∀ fuel : Nat, ctx.BlockHeight / k.dataCommitmentWindow + 1 ≤ fuel →
      handleDataCommitmentRequest fuel ctx k = .ok k' := by
  have hwin : toInt64 k.GetDataCommitmentWindowParam = (k.dataCommitmentWindow : Int) :=
    toInt64_of_lt _ hW63
  by_cases hle : lastEndBlock k ≤ ctx.BlockHeight
  · obtain ⟨k', hrun, _⟩ := dataCommitmentLoop_catchUp ctx k.dataCommitmentWindow hW hh
      ((ctx.BlockHeight - lastEndBlock k) / k.dataCommitmentWindow) k
      ((ctx.BlockHeight - lastEndBlock k) / k.dataCommitmentWindow + 1) rfl hle rfl (le_refl _)
    refine ⟨k', fun fuel hfuel => ?_⟩
    have hdiv : (ctx.BlockHeight - lastEndBlock k) / k.dataCommitmentWindow ≤
        ctx.BlockHeight / k.dataCommitmentWindow :=
      Nat.div_le_div_right (Nat.sub_le _ _)
    unfold handleDataCommitmentRequest
    rw [hwin]
    exact dataCommitmentLoop_mono_le ctx _ k k' _ fuel (by omega) hrun
  · refine ⟨k, fun fuel hfuel => ?_⟩
    have hpos : 1 ≤ fuel := le_trans (Nat.le_add_left 1 _) hfuel
    obtain ⟨f, rfl⟩ : ∃ f, fuel = f + 1 := ⟨fuel - 1, by omega⟩
    unfold handleDataCommitmentRequest
    rw [hwin]
    exact dataCommitmentLoop_stop ctx k f hh he (by omega)

/-- Termination at scenario S2: window 400 and height 1300, so four iterations suffice. -/
theorem handleDataCommitmentRequest_terminates_witness :
    1 ≤ (keeperWithFirstValset firstValset.Members 0).dataCommitmentWindow ∧
    (handleDataCommitmentRequest (1300 / 400 + 1) { BlockHeight := 1300, BlockTime := 0 }
      (keeperWithFirstValset firstValset.Members 0)).toOption.isSome = true := by
  obtain ⟨k', h⟩ := handleDataCommitmentRequest_terminates { BlockHeight := 1300, BlockTime := 0 }
    (keeperWithFirstValset firstValset.Members 0) (by decide) (by decide) (by decide) (by decide)
  refine ⟨by decide, ?_⟩
  rw [h (1300 / 400 + 1) (le_refl _)]
  rfl

/-! ## The window `2 ^ 63` -/

theorem hugeWindow_toInt64 :
    toInt64 hugeWindowKeeper.GetDataCommitmentWindowParam = -9223372036854775808 := by
  norm_num [toInt64, hugeWindowKeeper, Keeper.GetDataCommitmentWindowParam]

/-- C3, the failing input. The window is `2 ^ 63`, the height 100 and no data commitment is
stored, so the claim has `⌊100 / 2 ^ 63⌋ = 0` data commitments appended. The source converts
the window by `int64(·)` to `-2 ^ 63`, so its test `100 >= window` for the first data
commitment holds and `setDataCommitmentAttestation` appends a data commitment over the blocks
from 0 to `2 ^ 63` with the nonce 2; the loop goes on from the keeper that holds it, and
whatever number of iterations it is granted, the function does not return, neither the keeper
it was given nor any other. -/
theorem handleDataCommitmentRequest_emits_at_huge_window :
    1 ≤ hugeWindowKeeper.dataCommitmentWindow ∧
    100 / hugeWindowKeeper.dataCommitmentWindow = 0 ∧
    hugeWindowKeeper.HasDataCommitmentInStore = false ∧
    toInt64 hugeWindowKeeper.GetDataCommitmentWindowParam = -9223372036854775808 ∧
    (100 : Int) ≥ toInt64 hugeWindowKeeper.GetDataCommitmentWindowParam ∧
    setDataCommitmentAttestation { BlockHeight := 100, BlockTime := 0 } hugeWindowKeeper =
      .ok (withNextDataCommitment { BlockHeight := 100, BlockTime := 0 } hugeWindowKeeper) ∧
    (withNextDataCommitment { BlockHeight := 100, BlockTime := 0 } hugeWindowKeeper).requests =
      [.valset firstValset,
       .dataCommitment
         { Nonce := 2, BeginBlock := 0, EndBlock := 9223372036854775808, Time := 0 }] ∧
    (∀ fuel : Nat,
      handleDataCommitmentRequest (fuel + 1) { BlockHeight := 100, BlockTime := 0 }
          hugeWindowKeeper =
        dataCommitmentLoop { BlockHeight := 100, BlockTime := 0 }
          (toInt64 hugeWindowKeeper.GetDataCommitmentWindowParam) fuel
          (withNextDataCommitment { BlockHeight := 100, BlockTime := 0 } hugeWindowKeeper)) ∧
    (∀ (fuel : Nat) (k' : Keeper),
      handleDataCommitmentRequest fuel { BlockHeight := 100, BlockTime := 0 } hugeWindowKeeper ≠
        .ok k') := by
  refine ⟨by decide, by decide, by decide, hugeWindow_toInt64, ?_,
    setDataCommitmentAttestation_eq _ _, by decide, ?_, ?_⟩
  · rw [hugeWindow_toInt64]
    decide
  · intro fuel
    unfold handleDataCommitmentRequest
    conv => lhs; unfold dataCommitmentLoop
    have hnone : hugeWindowKeeper.HasDataCommitmentInStore = false := by decide
    rw [hnone, hugeWindow_toInt64]
    simp only [Bool.false_eq_true, if_false]
    rw [if_pos (by decide), setDataCommitmentAttestation_eq]
  · intro fuel k' h
    unfold handleDataCommitmentRequest at h
    rw [hugeWindow_toInt64, dataCommitmentLoop_min_window] at h
    cases h

/-- C17, the failing input. The window is `2 ^ 63` and the height 100, so the claim has the
loop end within `⌊100 / 2 ^ 63⌋ + 1 = 1` iteration. The source converts the window by
`int64(·)` to `-2 ^ 63`, both tests of the loop hold in every state, and whatever number of
iterations the loop is granted, it has not returned when they are used up. -/
theorem handleDataCommitmentRequest_never_returns (fuel : Nat) :
    1 ≤ hugeWindowKeeper.dataCommitmentWindow ∧
    100 / hugeWindowKeeper.dataCommitmentWindow + 1 = 1 ∧
    handleDataCommitmentRequest fuel { BlockHeight := 100, BlockTime := 0 } hugeWindowKeeper =
      .error .outOfFuel := by
  refine ⟨by decide, by decide, ?_⟩
  unfold handleDataCommitmentRequest
  rw [hugeWindow_toInt64, dataCommitmentLoop_min_window]

/-! ## The invariant of the log under pruning -/

/-- A pass that completes, or that returns before its loop, preserves the invariant: when
every nonce from the earliest available one below the latest one can be read, the invariant
holds after the pass if it held before. -/
theorem prune_preserves_stored_without_failed_read (ctx : Ctx) (k : Keeper)
    (hinv : EveryNonceStored k)
    (hread : ∀ m, k.earliestAvailableNonce ≤ m → m < k.GetLatestAttestationNonce →
      ∃ a, k.entryAt m = some (.decoded a)) :
    EveryNonceStored (maybePruneAttestations ctx k) := by
  obtain ⟨stop, h1, h2, h3, _, h5, h6⟩ := maybePrune_spec ctx k
  have hlat : (maybePruneAttestations ctx k).GetLatestAttestationNonce =
      k.GetLatestAttestationNonce := by
    unfold Keeper.GetLatestAttestationNonce
    rw [h5]
  intro n hn1 hn2
  rw [hlat] at hn2
  rcases h6 with ⟨hnew, _⟩ | ⟨hnew, hwhere, hwhy⟩
  · rw [hnew] at hn1
    rw [h3 n, if_neg (by omega)]
    exact hinv n (by omega) hn2
  · rw [hnew] at hn1
    have hstop : stop = k.earliestAvailableNonce := by
      rcases hwhere with hw | hw
      · exact hw
      · exfalso
        obtain ⟨a, ha⟩ := hread stop h1 hw
        rcases hwhy with hy | hy | ⟨g, hy⟩
        · have : k.GetLatestAttestationNonce = 0 := by
            simp [Keeper.GetLatestAttestationNonce, hy]
          omega
        · rw [ha] at hy; cases hy
        · rw [ha] at hy; cases hy
    rw [h3 n, if_neg (by omega)]
    exact hinv n hn1 hn2

/-- C18, the failing input. The log holds the nonces 1, 2, 3 and satisfies the invariant, the
attestation at nonce 1 is expired and the read at nonce 2 fails. The pass deletes nonce 1,
returns from inside the loop at nonce 2 and never persists the cursor: the earliest available
nonce is still 1, where nothing is stored any more, and the invariant is broken. -/
theorem prune_abort_breaks_invariant :
    EveryNonceStored unreadableSecondKeeper ∧
    (maybePruneAttestations nineWeeksCtx unreadableSecondKeeper).earliestAvailableNonce = 1 ∧
    (maybePruneAttestations nineWeeksCtx unreadableSecondKeeper).GetLatestAttestationNonce = 3 ∧
    (maybePruneAttestations nineWeeksCtx unreadableSecondKeeper).GetAttestationByNonce 1 =
      { att := none, found := false, err := none } ∧
    ¬ EveryNonceStored (maybePruneAttestations nineWeeksCtx unreadableSecondKeeper) := by
  refine ⟨?_, by decide, by decide, by decide, ?_⟩
  · intro n h1 h3
    have h1' : 1 ≤ n := h1
    have h3' : n ≤ 3 := h3
    have hn : n = 1 ∨ n = 2 ∨ n = 3 := by omega
    rcases hn with rfl | rfl | rfl <;> decide
  · intro hinv
    have h := hinv 1 (by decide) (by decide)
    exact absurd h (by decide)

/-! ## The processor -/

theorem validatorPartOfValset_false_iff (members : List BridgeValidator) (ethAddr : String) :
    ValidatorPartOfValset members ethAddr = false ↔
      ∀ val ∈ members, val.EthereumAddress ≠ ethAddr := by
  induction members with
  | nil => simp [ValidatorPartOfValset]
  | cons val rest ih =>
    unfold ValidatorPartOfValset
    by_cases h : val.EthereumAddress = ethAddr
    · simp [h]
    · simp [h, ih]

theorem processAttestation_confirmed (orch : Orchestrator) (nonce : Nat) (att : Attestation)
    (ch : Channels) (hn : att.GetNonce = nonce) (hconf : alreadyConfirmed orch nonce att) :
    (processAttestation orch nonce att ch).1.broadcasts = ch.broadcasts ∧
    (processAttestation orch nonce att ch).2 = none := by
  cases att with
  | valset vs =>
    obtain ⟨resp, hq, hne⟩ := hconf
    unfold processAttestation
    simp only
    split
    · exact ⟨rfl, rfl⟩
    · rw [hq]
      simp [hne]
  | dataCommitment dc =>
    obtain ⟨resp, hq, hne⟩ := hconf
    have hdn : dc.Nonce = nonce := hn
    unfold processAttestation
    simp only
    split
    · exact ⟨rfl, rfl⟩
    · rw [hdn, hq]
      simp [hne]

/-- C11. When the attestation of a nonce is a valset (a data commitment) and the querier
already returns a non-empty valset confirm (data commitment confirm) of this orchestrator for
the nonce, `Process` makes no broadcast, whatever the other queries answer, and it returns
`nil` once the queries for the last unbonding nonce and for the signing valset answer. -/
theorem process_already_confirmed (orch : Orchestrator) (nonce : Nat) (ch : Channels)
    (att : Attestation)
    (hatt : orch.qgbQuerier.QueryAttestationByNonce nonce = .ok (some att))
    (hn : att.GetNonce = nonce) (hconf : alreadyConfirmed orch nonce att) :
    (Process orch nonce ch).1.broadcasts = ch.broadcasts ∧
    (∀ (u : Nat) (sv : Valset), orch.qgbQuerier.QueryLastUnbondingAttestationNonce = .ok u →
      querySigningValset orch.qgbQuerier att = .ok sv → (Process orch nonce ch).2 = none) := by
  have hpa := processAttestation_confirmed orch nonce att ch hn hconf
  constructor
  · unfold Process
    split
    · rfl
    · split
      · rfl
      · rw [hatt]
        simp only
        split
        · rfl
        · split
          · rfl
          · exact hpa.1
  · intro u sv hu hsv
    unfold Process
    rw [hu]
    simp only
    split
    · rfl
    · rw [hatt]
      simp only
      rw [hsv]
      simp only
      split
      · rfl
      · exact hpa.2

/-- C11 at scenario S6: nonce 7 is a valset, the orchestrator is a member of the signing
valset and the querier holds its confirm, so `Process` returns `nil` and broadcasts nothing. -/
theorem process_already_confirmed_witness :
    (Process (sampleOrchestrator "0xA" 100 100) 7 noChannels).1.broadcasts = [] ∧
    (Process (sampleOrchestrator "0xA" 100 100) 7 noChannels).2 = none :=
  have h := process_already_confirmed (sampleOrchestrator "0xA" 100 100) 7 noChannels
    (.valset seventhValset) rfl rfl
    ⟨{ Nonce := 7, Orchestrator := "celestia1orch", EthAddress := "0xA", Signature := "5a" },
      rfl, by decide⟩
  ⟨h.1, h.2 1 seventhValset rfl rfl⟩

/-- C12. `Process` skips a nonce outside the signing responsibility. When the nonce is below
the last unbonding nonce just queried, or when no member of the signing valset of its
attestation carries the orchestrator's ethereum address, `Process` returns `nil` and leaves
the requeue channel and the broadcasts as they were. -/
theorem process_skips_outside_responsibility (orch : Orchestrator) (nonce : Nat)
    (ch : Channels) :
    (∀ u : Nat, orch.qgbQuerier.QueryLastUnbondingAttestationNonce = .ok u → nonce < u →
      Process orch nonce ch = (ch, none)) ∧
    (∀ (u : Nat) (att : Attestation) (sv : Valset),
      orch.qgbQuerier.QueryLastUnbondingAttestationNonce = .ok u →
      orch.qgbQuerier.QueryAttestationByNonce nonce = .ok (some att) →
      querySigningValset orch.qgbQuerier att = .ok sv →
      (∀ val ∈ sv.Members, val.EthereumAddress ≠ orch.OrchEthAddress) →
      Process orch nonce ch = (ch, none)) := by
  constructor
  · intro u hu hlt
    unfold Process
    rw [hu]
    simp only
    rw [if_pos hlt]
  · intro u att sv hu hatt hsv hmem
    have hpart := (validatorPartOfValset_false_iff sv.Members orch.OrchEthAddress).mpr hmem
    unfold Process
    rw [hu]
    simp only
    split
    · rfl
    · rw [hatt]
      simp only
      rw [hsv]
      simp only
      rw [hpart]
      rfl

/-- C12 at two calls: nonce 0 is below the last unbonding nonce 1, and at nonce 7 the
orchestrator of address `0xB` is no member of the signing valset; both are skipped. -/
theorem process_skips_outside_responsibility_witness :
    Process (sampleOrchestrator "0xA" 100 100) 0 noChannels = (noChannels, none) ∧
    Process (sampleOrchestrator "0xB" 100 100) 7 noChannels = (noChannels, none) :=
  ⟨(process_skips_outside_responsibility (sampleOrchestrator "0xA" 100 100) 0 noChannels).1
      1 rfl (by decide),
   (process_skips_outside_responsibility (sampleOrchestrator "0xB" 100 100) 7 noChannels).2
      1 (.valset seventhValset) seventhValset rfl rfl rfl (by decide)⟩

/-- C15 fails as stated: the valset of nonce 7 has height 50, above the milestone 10 and not
above the start height 100, but the orchestrator of address `0xB` is no member of the signing
valset, and `Process` returns `nil` without pushing the nonce onto the requeue channel. -/
theorem process_not_ready_not_requeued :
    (sampleOrchestrator "0xB" 10 100).qgbQuerier.QueryAttestationByNonce 7 =
      .ok (some (.valset seventhValset)) ∧
    ((seventhValset.Height : Int) > (sampleOrchestrator "0xB" 10 100).qgbQuerier.GetStorageHeightsMilestone ∧
      (seventhValset.Height : Int) ≤ (sampleOrchestrator "0xB" 10 100).startHeight) ∧
    Process (sampleOrchestrator "0xB" 10 100) 7 noChannels = (noChannels, none) ∧
    (Process (sampleOrchestrator "0xB" 10 100) 7 noChannels).1.requeue = [] :=
  ⟨rfl, by decide, rfl, rfl⟩

/-- C15, amended. A nonce that is not below the last unbonding nonce is requeued, exactly
once, without broadcast and with the result `nil`, when the querier has no attestation for it,
or when the orchestrator is a member of the signing valset of its attestation and the
attestation's height (valset) or end block (data commitment) is above the storage milestone
and not above the start height. -/
theorem process_requeues_not_ready (orch : Orchestrator) (nonce : Nat) (ch : Channels)
    (u : Nat) (hu : orch.qgbQuerier.QueryLastUnbondingAttestationNonce = .ok u)
    (hge : ¬ nonce < u) :
    (orch.qgbQuerier.QueryAttestationByNonce nonce = .ok none →
      Process orch nonce ch =
        ({ requeue := ch.requeue ++ [nonce], broadcasts := ch.broadcasts }, none)) ∧
    (∀ (att : Attestation) (sv : Valset),
      orch.qgbQuerier.QueryAttestationByNonce nonce = .ok (some att) →
      querySigningValset orch.qgbQuerier att = .ok sv →
      ValidatorPartOfValset sv.Members orch.OrchEthAddress = true →
      notYetReady orch att →
      Process orch nonce ch =
        ({ requeue := ch.requeue ++ [nonce], broadcasts := ch.broadcasts }, none)) := by
  constructor
  · intro hatt
    unfold Process
    rw [hu]
    simp only
    rw [if_neg hge, hatt]
  · intro att sv hatt hsv hpart hready
    unfold Process
    rw [hu]
    simp only
    rw [if_neg hge, hatt]
    simp only
    rw [hsv]
    simp only
    rw [hpart]
    simp only [Bool.not_true, Bool.false_eq_true, if_false]
    cases att with
    | valset vs =>
      obtain ⟨h1, h2⟩ := hready
      unfold processAttestation
      simp [h1, h2]
    | dataCommitment dc =>
      obtain ⟨h1, h2⟩ := hready
      unfold processAttestation
      simp [h1, h2]

/-- C15, amended, at two calls: nonce 8 has no attestation in the querier, and the valset of
nonce 7, signed by the member `0xA`, is above the milestone 10 and not above the start height
100; both nonces are pushed once onto the requeue channel. -/
theorem process_requeues_not_ready_witness :
    Process (sampleOrchestrator "0xA" 10 100) 8 noChannels =
      ({ requeue := [8], broadcasts := [] }, none) ∧
    Process (sampleOrchestrator "0xA" 10 100) 7 noChannels =
      ({ requeue := [7], broadcasts := [] }, none) :=
  ⟨(process_requeues_not_ready (sampleOrchestrator "0xA" 10 100) 8 noChannels 1 rfl
      (by decide)).1 rfl,
   (process_requeues_not_ready (sampleOrchestrator "0xA" 10 100) 7 noChannels 1 rfl
      (by decide)).2 (.valset seventhValset) seventhValset rfl rfl (by decide)
      ⟨by decide, by decide⟩⟩

/-! ## The retrier -/

theorem stateAfter_shift {σ : Type} (op : Nat → σ → σ × Option String) (nonce : Nat) (s : σ)
    (j : Nat) : stateAfter op nonce s (j + 1) = stateAfter op nonce (op nonce s).1 j := by
  induction j with
  | zero => rfl
  | succ j ih =>
    show (op nonce (stateAfter op nonce s (j + 1))).1 =
      (op nonce (stateAfter op nonce (op nonce s).1 j)).1
    rw [ih]

theorem resultOfCall_shift {σ : Type} (op : Nat → σ → σ × Option String) (nonce : Nat) (s : σ)
    (j : Nat) : resultOfCall op nonce s (j + 1) = resultOfCall op nonce (op nonce s).1 j := by
  unfold resultOfCall
  rw [stateAfter_shift]

/-- The loop when the call number `k + 1` is the first to succeed: it stops there. -/
theorem retryLoop_first_success {σ : Type} (R : Nat) (op : Nat → σ → σ × Option String)
    (nonce : Nat) :
    ∀ (k fuel i : Nat) (err : Option String) (s : σ), i + fuel = R + 1 → k < fuel →
      (∀ j, j < k → resultOfCall op nonce s j ≠ none) → resultOfCall op nonce s k = none →
      retryLoop (R : Int) neverDone nonce op fuel i err s =
        (stateAfter op nonce s (k + 1), none) := by
  intro k
  induction k with
  | zero =>
    intro fuel i err s hi hk _ hres
    obtain ⟨f, rfl⟩ : ∃ f, fuel = f + 1 := ⟨fuel - 1, by omega⟩
    unfold retryLoop
    have hle : (i : Int) ≤ (R : Int) := by omega
    have hc : neverDone i = false := rfl
    rw [if_pos hle]
    simp only [hc, Bool.false_eq_true, if_false]
    have hr : (op nonce s).2 = none := hres
    cases hop : op nonce s with
    | mk s' r =>
      rw [hop] at hr
      simp only at hr
      subst hr
      simp only [stateAfter, hop]
  | succ k ih =>
    intro fuel i err s hi hk hfail hres
    obtain ⟨f, rfl⟩ : ∃ f, fuel = f + 1 := ⟨fuel - 1, by omega⟩
    unfold retryLoop
    have hle : (i : Int) ≤ (R : Int) := by omega
    have hc : neverDone i = false := rfl
    rw [if_pos hle]
    simp only [hc, Bool.false_eq_true, if_false]
    have h0 : (op nonce s).2 ≠ none := hfail 0 (by omega)
    cases hop : op nonce s with
    | mk s' r =>
      rw [hop] at h0
      simp only at h0
      cases r with
      | none => exact absurd rfl h0
      | some e =>
        simp only
        have hs' : s' = (op nonce s).1 := by rw [hop]
        rw [ih f (i + 1) (some e) s' (by omega) (by omega)
          (fun j hj => by rw [hs', ← resultOfCall_shift]; exact hfail (j + 1) (by omega))
          (by rw [hs', ← resultOfCall_shift]; exact hres)]
        rw [hs', ← stateAfter_shift]

/-- The loop when every call fails: it runs out its iterations and hands back the error of
the last call. -/
theorem retryLoop_all_fail {σ : Type} (R : Nat) (op : Nat → σ → σ × Option String)
    (nonce : Nat) :
    ∀ (fuel i : Nat) (err : Option String) (s : σ), i + fuel = R + 1 →
      (∀ j, j < fuel → resultOfCall op nonce s j ≠ none) →
      retryLoop (R : Int) neverDone nonce op fuel i err s =
        (stateAfter op nonce s fuel,
          if fuel = 0 then err else resultOfCall op nonce s (fuel - 1)) := by
  intro fuel
  induction fuel with
  | zero =>
    intro i err s _ _
    simp [retryLoop, stateAfter]
  | succ f ih =>
    intro i err s hi hfail
    unfold retryLoop
    have hle : (i : Int) ≤ (R : Int) := by omega
    have hc : neverDone i = false := rfl
    rw [if_pos hle]
    simp only [hc, Bool.false_eq_true, if_false]
    have h0 : (op nonce s).2 ≠ none := hfail 0 (by omega)
    cases hop : op nonce s with
    | mk s' r =>
      rw [hop] at h0
      simp only at h0
      cases r with
      | none => exact absurd rfl h0
      | some e =>
        simp only
        have hs' : s' = (op nonce s).1 := by rw [hop]
        rw [ih (i + 1) (some e) s' (by omega)
          (fun j hj => by rw [hs', ← resultOfCall_shift]; exact hfail (j + 1) (by omega))]
        rw [hs', ← stateAfter_shift]
        congr 1
        by_cases hf : f = 0
        · subst hf
          simp [resultOfCall, stateAfter, hop]
        · obtain ⟨g, rfl⟩ : ∃ g, f = g + 1 := ⟨f - 1, by omega⟩
          simp [← resultOfCall_shift]

theorem stateAfter_counted {σ : Type} (op : Nat → σ → σ × Option String) (nonce : Nat) (s : σ)
    (log : List Nat) (j : Nat) :
    stateAfter (counted op) nonce (s, log) j =
      (stateAfter op nonce s j, log ++ List.replicate j nonce) := by
  induction j with
  | zero => simp [stateAfter]
  | succ j ih =>
    show ((counted op) nonce (stateAfter (counted op) nonce (s, log) j)).1 = _
    rw [ih]
    simp [counted, stateAfter, List.replicate_succ', List.append_assoc]

theorem resultOfCall_counted {σ : Type} (op : Nat → σ → σ × Option String) (nonce : Nat)
    (s : σ) (log : List Nat) (j : Nat) :
    resultOfCall (counted op) nonce (s, log) j = resultOfCall op nonce s j := by
  unfold resultOfCall
  rw [stateAfter_counted]
  rfl

/-- C13. For `retriesNumber = R ≥ 0`, any method and a context that is never done, `Retry`
calls the method, always with the given nonce, at most `R + 1` times; when the call number
`k + 1` is the first to succeed, it makes exactly these `k + 1` calls and returns `nil`; when
all `R + 1` calls fail, it makes them all and returns the error of the last one. -/
theorem retry_calls {σ : Type} (R : Nat) (op : Nat → σ → σ × Option String) (nonce : Nat)
    (s : σ) :
    (∃ c, c ≤ R + 1 ∧
      (Retry (R : Int) neverDone nonce (counted op) (s, [])).1.2 = List.replicate c nonce) ∧
    (∀ k, k < R + 1 → (∀ j, j < k → resultOfCall op nonce s j ≠ none) →
      resultOfCall op nonce s k = none →
      Retry (R : Int) neverDone nonce (counted op) (s, []) =
        ((stateAfter op nonce s (k + 1), List.replicate (k + 1) nonce), none)) ∧
    ((∀ j, j < R + 1 → resultOfCall op nonce s j ≠ none) →
      Retry (R : Int) neverDone nonce (counted op) (s, []) =
        ((stateAfter op nonce s (R + 1), List.replicate (R + 1) nonce),
          resultOfCall op nonce s R)) := by
  have hfuel : ((R : Int) + 1).toNat = R + 1 := by omega
  have hA : ∀ k, k < R + 1 → (∀ j, j < k → resultOfCall op nonce s j ≠ none) →
      resultOfCall op nonce s k = none →
      Retry (R : Int) neverDone nonce (counted op) (s, []) =
        ((stateAfter op nonce s (k + 1), List.replicate (k + 1) nonce), none) := by
    intro k hk hfail hres
    unfold Retry
    rw [hfuel, retryLoop_first_success R (counted op) nonce k (R + 1) 0 none (s, []) (by omega) hk
      (fun j hj => by rw [resultOfCall_counted]; exact hfail j hj)
      (by rw [resultOfCall_counted]; exact hres), stateAfter_counted]
    simp
  have hB : (∀ j, j < R + 1 → resultOfCall op nonce s j ≠ none) →
      Retry (R : Int) neverDone nonce (counted op) (s, []) =
        ((stateAfter op nonce s (R + 1), List.replicate (R + 1) nonce),
          resultOfCall op nonce s R) := by
    intro hfail
    unfold Retry
    rw [hfuel, retryLoop_all_fail R (counted op) nonce (R + 1) 0 none (s, []) (by omega)
      (fun j hj => by rw [resultOfCall_counted]; exact hfail j hj), stateAfter_counted,
      resultOfCall_counted]
    simp
  refine ⟨?_, hA, hB⟩
  by_cases hex : ∃ k, k < R + 1 ∧ resultOfCall op nonce s k = none
  · classical
    have hk := Nat.find_spec hex
    have hmin : ∀ j, j < Nat.find hex → resultOfCall op nonce s j ≠ none := by
      intro j hj hnone
      exact Nat.find_min hex hj ⟨by omega, hnone⟩
    refine ⟨Nat.find hex + 1, by omega, ?_⟩
    rw [hA (Nat.find hex) hk.1 hmin hk.2]
  · have hfail : ∀ j, j < R + 1 → resultOfCall op nonce s j ≠ none := by
      intro j hj hnone
      exact hex ⟨j, hj, hnone⟩
    refine ⟨R + 1, le_refl _, ?_⟩
    rw [hB hfail]

/-- C13 with two retries: a method that succeeds at its third call is called three times,
and one that never succeeds within three calls is called three times and fails. -/
theorem retry_calls_witness :
    Retry (2 : Nat) neverDone 7 (counted (succeedsFrom 2)) (0, []) = ((3, [7, 7, 7]), none) ∧
    Retry (2 : Nat) neverDone 7 (counted (succeedsFrom 5)) (0, []) =
      ((3, [7, 7, 7]), some "not yet") :=
  ⟨(retry_calls 2 (succeedsFrom 2) 7 0).2.1 2 (by decide)
      (fun j hj => by
        have : j = 0 ∨ j = 1 := by omega
        rcases this with rfl | rfl <;> decide)
      (by decide),
   (retry_calls 2 (succeedsFrom 5) 7 0).2.2
      (fun j hj => by
        have : j = 0 ∨ j = 1 ∨ j = 2 := by omega
        rcases this with rfl | rfl | rfl <;> decide)⟩

/-! ## The loop of the processor -/

theorem processNonces_returned {σ : Type} (process : Nat → σ → σ × Option String)
    (retry : Nat → (Nat → σ → σ × Option String) → σ → σ × Option String)
    (es : List ProcessorEvent) (p : Processor σ) (h : p.returned.isSome = true) :
    ProcessNonces process retry es p = p := by
  cases es with
  | nil => rfl
  | cons e es =>
    unfold ProcessNonces
    cases hr : p.returned with
    | none => rw [hr] at h; cases h
    | some r => rfl

/-- C14. On a dequeued nonce, while the processor runs with the signal channel open: when
`Process` succeeds, the channel stays open and the loop goes on; when `Process` fails, the
retrier is called for this nonce with `Process` as its method, from the state `Process` left;
the signal channel is closed exactly when that retry returns an error, and then
`ProcessNonces` returns this very error and handles no further nonce; otherwise the loop goes
on with the next event. -/
theorem processNonces_retry {σ : Type} (process : Nat → σ → σ × Option String)
    (retry : Nat → (Nat → σ → σ × Option String) → σ → σ × Option String)
    (p : Processor σ) (nonce : Nat) (rest : List ProcessorEvent)
    (hopen : p.signalClosed = false) (hrun : p.returned = none) :
    ((process nonce p.world).2 = none →
      ProcessNonces process retry (.nonce nonce :: rest) p =
        ProcessNonces process retry rest
          { world := (process nonce p.world).1, signalClosed := false, returned := none }) ∧
    ((process nonce p.world).2 ≠ none →
      (retry nonce process (process nonce p.world).1).2 = none →
      ProcessNonces process retry (.nonce nonce :: rest) p =
        ProcessNonces process retry rest
          { world := (retry nonce process (process nonce p.world).1).1,
            signalClosed := false, returned := none }) ∧
    (∀ err : String, (process nonce p.world).2 ≠ none →
      (retry nonce process (process nonce p.world).1).2 = some err →
      ProcessNonces process retry (.nonce nonce :: rest) p =
        { world := (retry nonce process (process nonce p.world).1).1,
          signalClosed := true, returned := some (some err) }) ∧
    (((processNoncesStep process retry p (.nonce nonce)).signalClosed = true ↔
        ((process nonce p.world).2 ≠ none ∧
          (retry nonce process (process nonce p.world).1).2 ≠ none)) ∧
      ((processNoncesStep process retry p (.nonce nonce)).returned.isSome = true ↔
        ((process nonce p.world).2 ≠ none ∧
          (retry nonce process (process nonce p.world).1).2 ≠ none))) := by
  have hstep : ProcessNonces process retry (.nonce nonce :: rest) p =
      ProcessNonces process retry rest (processNoncesStep process retry p (.nonce nonce)) := by
    conv => lhs; unfold ProcessNonces
    rw [hrun]
  cases hp : process nonce p.world with
  | mk w r =>
    cases r with
    | none =>
      have hq : processNoncesStep process retry p (.nonce nonce) =
          { world := w, signalClosed := false, returned := none } := by
        simp only [processNoncesStep, hp, hopen, hrun]
      refine ⟨?_, ?_, ?_, ?_⟩
      · intro _
        rw [hstep, hq]
      · intro h
        exact absurd rfl h
      · intro _ h
        exact absurd rfl h
      · rw [hq]
        simp
    | some e =>
      cases hr : retry nonce process w with
      | mk w' r' =>
        cases r' with
        | none =>
          have hq : processNoncesStep process retry p (.nonce nonce) =
              { world := w', signalClosed := false, returned := none } := by
            simp only [processNoncesStep, hp, hr, hopen, hrun]
          refine ⟨?_, ?_, ?_, ?_⟩
          · intro h
            cases h
          · intro _ _
            rw [hstep, hq]
          · intro err _ h
            cases h
          · rw [hq]
            simp
        | some err =>
          have hq : processNoncesStep process retry p (.nonce nonce) =
              { world := w', signalClosed := true, returned := some (some err) } := by
            simp only [processNoncesStep, hp, hr]
          refine ⟨?_, ?_, ?_, ?_⟩
          · intro h
            cases h
          · intro _ h
            cases h
          · intro err' _ h
            injection h with h
            subst h
            rw [hstep, hq]
            exact processNonces_returned process retry rest _ rfl
          · rw [hq]
            simp

/-- C14 at a method that succeeds at its fourth call: with one retry the retrier fails on
nonce 7, so the signal channel is closed, the error is returned and nonce 8 is not handled;
with two retries it succeeds and the loop goes on with the signal channel open. -/
theorem processNonces_retry_witness :
    ProcessNonces (succeedsFrom 3) (fun n m s => Retry (1 : Nat) neverDone n m s)
        [.nonce 7, .nonce 8] (freshProcessor 0) =
      { world := 3, signalClosed := true, returned := some (some "not yet") } ∧
    ProcessNonces (succeedsFrom 3) (fun n m s => Retry (2 : Nat) neverDone n m s)
        [.nonce 7] (freshProcessor 0) =
      { world := 4, signalClosed := false, returned := none } :=
  ⟨(processNonces_retry (succeedsFrom 3) (fun n m s => Retry (1 : Nat) neverDone n m s)
      (freshProcessor 0) 7 [.nonce 8] rfl rfl).2.2.1 "not yet" (by decide) (by decide),
   (processNonces_retry (succeedsFrom 3) (fun n m s => Retry (2 : Nat) neverDone n m s)
      (freshProcessor 0) 7 [] rfl rfl).2.1 (by decide) (by decide)⟩

/-! ## The encoder -/

theorem checkpointMethodID_length : checkpointMethodID.length = 4 := by
  decide!

theorem leftAligned32_checkpoint :
    leftAligned32 checkpointBytes =
      [99, 104, 101, 99, 107, 112, 111, 105, 110, 116] ++ List.replicate 22 0 := by
  decide

theorem bigEndian_length (len n : Nat) : (bigEndian len n).length = len := by
  simp [bigEndian]

/-- Below `2 ^ 63` the conversion to `int64` and the packing as `uint256` give the unsigned
big-endian word of the number. -/
theorem u256Bytes_toInt64 (n : Nat) (h : n < 2 ^ 63) :
    U256Bytes (toInt64 n) = bigEndian 32 n := by
  have h64 : n % 2 ^ 64 = n := Nat.mod_eq_of_lt (by omega)
  have hto : toInt64 n = (n : Int) := by
    unfold toInt64
    rw [h64, if_pos h]
  unfold U256Bytes
  rw [hto]
  have hmod : ((n : Int) % 2 ^ 256).toNat = n := by
    have hlt : n < 2 ^ 256 := lt_trans h (by norm_num)
    have : ((n : Int) % 2 ^ 256) = ((n % 2 ^ 256 : Nat) : Int) := by
      push_cast
      rfl
    rw [this, Nat.mod_eq_of_lt hlt]
    rfl
  rw [hmod]

/-- For a nonce and a two-thirds threshold below `2 ^ 63`, `EncodeValsetConfirm` is the
Keccak-256 of the 160 bytes of the claim. -/
theorem encodeValsetConfirm_below (bridgeID : Hash) (valset : Valset) (vsHash : Hash)
    (hn : valset.Nonce < 2 ^ 63) (ht : valset.TwoThirdsThreshold < 2 ^ 63) :
    EncodeValsetConfirm bridgeID valset vsHash =
      Keccak256 (checkpointWords bridgeID valset.Nonce valset.TwoThirdsThreshold vsHash) ∧
    (checkpointWords bridgeID valset.Nonce valset.TwoThirdsThreshold vsHash).length = 160 := by
  constructor
  · unfold EncodeValsetConfirm packCheckpoint checkpointWords
    rw [u256Bytes_toInt64 _ hn, u256Bytes_toInt64 _ ht, leftAligned32_checkpoint]
    simp only [List.append_assoc]
    rw [List.drop_left' checkpointMethodID_length]
  · unfold checkpointWords
    simp [bigEndian_length, bridgeID.size, vsHash.size]

theorem hugeNonce_lt : hugeNonceValset.Nonce < 2 ^ 64 := by
  norm_num [hugeNonceValset]

theorem hugeNonce_toInt64 : toInt64 hugeNonceValset.Nonce = -(2 ^ 63) := by
  norm_num [toInt64, hugeNonceValset]

theorem hugeNonce_packed :
    U256Bytes (toInt64 hugeNonceValset.Nonce) =
      List.replicate 24 255 ++ [128, 0, 0, 0, 0, 0, 0, 0] := by
  decide!

theorem hugeNonce_bigEndian :
    bigEndian 32 hugeNonceValset.Nonce = List.replicate 24 0 ++ [128, 0, 0, 0, 0, 0, 0, 0] := by
  decide!

theorem hugeNonce_bytes :
    (packCheckpoint zeroHash hugeNonceValset zeroHash).drop 4 ≠
      checkpointWords zeroHash hugeNonceValset.Nonce hugeNonceValset.TwoThirdsThreshold
        zeroHash := by
  decide!

theorem hugeNonce_digest :
    EncodeValsetConfirm zeroHash hugeNonceValset zeroHash ≠
      Keccak256 (checkpointWords zeroHash hugeNonceValset.Nonce
        hugeNonceValset.TwoThirdsThreshold zeroHash) := by
  decide!

/-- C16, the failing input. For the nonce `2 ^ 63` the conversion `int64(valset.Nonce)` is
negative and the nonce is packed as 24 bytes `0xff` before its eight bytes, not as the
unsigned big-endian word with 24 zero bytes; the bytes hashed are not those of the claim and
the digest is not their Keccak-256. -/
theorem encodeValsetConfirm_huge_nonce :
    hugeNonceValset.Nonce < 2 ^ 64 ∧
    toInt64 hugeNonceValset.Nonce = -(2 ^ 63) ∧
    U256Bytes (toInt64 hugeNonceValset.Nonce) =
      List.replicate 24 255 ++ [128, 0, 0, 0, 0, 0, 0, 0] ∧
    bigEndian 32 hugeNonceValset.Nonce = List.replicate 24 0 ++ [128, 0, 0, 0, 0, 0, 0, 0] ∧
    (packCheckpoint zeroHash hugeNonceValset zeroHash).drop 4 ≠
      checkpointWords zeroHash hugeNonceValset.Nonce hugeNonceValset.TwoThirdsThreshold
        zeroHash ∧
    EncodeValsetConfirm zeroHash hugeNonceValset zeroHash ≠
      Keccak256 (checkpointWords zeroHash hugeNonceValset.Nonce
        hugeNonceValset.TwoThirdsThreshold zeroHash) :=
  ⟨hugeNonce_lt, hugeNonce_toInt64, hugeNonce_packed, hugeNonce_bigEndian, hugeNonce_bytes,
    hugeNonce_digest⟩

end QGB
